import Mathlib

/-!
DeepSpeech native client: command-line argument processing (`native_client/args.h`).

A shallow embedding of `ProcessArgs` and `PrintHelp`, together with the two C library
facilities the function relies on: `getopt_long` (GNU `<getopt.h>`) and `atoi`/`atof`.

* The configuration is the group of global variables of `args.h`, gathered in `Globals`.
* `getopt_long` is called in a loop with the same arguments until it returns `-1`; the values
  it returns, each with the value of `optarg` at that moment, depend on `argv` alone.  They
  are computed by `getopt_returns`, and the loop of `ProcessArgs` consumes them one by one.
* What the process writes is recorded as a list of `Output` items, and the way control
  leaves `ProcessArgs` (a `return`, or `exit(1)` inside `PrintHelp`) as an `Ending`.

The library functions are modelled as the GNU C library behaves on an LP64 platform:
`getopt_long` permutes, that is, it skips the `argv` elements that are not options
(`POSIXLY_CORRECT` is not set), and `atoi` is `strtol` followed by a conversion to `int`.
`ProcessArgs` is taken to be called once, with `optind` at its initial value 1.
-/

namespace DeepSpeech

/-! ## C library: `atoi`, `atof` -/

/-- The C `isspace` predicate in the "C" locale. -/
def isspace (c : Char) : Bool :=
  c = ' ' || c = '\t' || c = '\n' || c = '\x0b' || c = '\x0c' || c = '\r'

/-- Value of the longest prefix of decimal digits, continuing from the accumulator. -/
def digitsValue : List Char → Nat → Nat
  | [], acc => acc
  | c :: cs, acc =>
    if c.isDigit then digitsValue cs (acc * 10 + (c.toNat - '0'.toNat)) else acc

/-- Smallest value of a C `long` on an LP64 platform. -/
def LONG_MIN : Int := -(2 ^ 63)

/-- Largest value of a C `long` on an LP64 platform. -/
def LONG_MAX : Int := 2 ^ 63 - 1

/-- The sign and digits part of `strtol`, after leading white space was skipped. -/
def strtolSigned : List Char → Int
  | '-' :: cs => max (-(digitsValue cs 0 : Int)) LONG_MIN
  | '+' :: cs => min (digitsValue cs 0 : Int) LONG_MAX
  | cs => min (digitsValue cs 0 : Int) LONG_MAX

/-- The call `strtol(nptr, NULL, 10)`: white space is skipped, an optional sign is read, then
the longest run of decimal digits; the value saturates at `LONG_MIN` / `LONG_MAX`. -/
def strtol (nptr : List Char) : Int :=
  strtolSigned (nptr.dropWhile isspace)

/-- Conversion of a `long` to a 32-bit `int` (reduction modulo `2 ^ 32`). -/
def toInt (x : Int) : Int :=
  (x + 2 ^ 31) % 2 ^ 32 - 2 ^ 31

/-- The call `atoi(nptr)`, which is `(int) strtol(nptr, NULL, 10)`. -/
def atoi (nptr : String) : Int :=
  toInt (strtol nptr.data)

/-- A C `float` held by `lm_alpha` or `lm_beta`.  Floating-point values are not computed:
a value is recorded as the literal `0.f` or as the result of `atof` on a given text. -/
inductive CFloat where
  | zero
  | ofText (nptr : String)
  deriving DecidableEq, Repr

/-- The call `atof(nptr)`, converted to `float`. -/
def atof (nptr : String) : CFloat :=
  CFloat.ofText nptr

/-! ## C library: `getopt_long` -/

/-- An entry of a `long_opts` table (`struct option`).  The `flag` member is `nullptr` in every
entry of the table of `ProcessArgs` and is left out; `has_arg` is `true` for
`required_argument` and `false` for `no_argument`. -/
structure option where
  name : String
  has_arg : Bool
  val : Char
  deriving DecidableEq, Repr

/-- The constant `no_argument` of `<getopt.h>`. -/
def no_argument : Bool := false

/-- The constant `required_argument` of `<getopt.h>`. -/
def required_argument : Bool := true

/-- One value returned by `getopt_long` other than `-1`, with the value `optarg` has when the
call returns (`none` for a null pointer). -/
structure GetoptReturn where
  opt : Char
  optarg : Option String
  deriving DecidableEq, Repr

/-- Search of a short option character in the option string: `none` when the character is
not an option, otherwise whether it is followed by `:` (the option requires an argument). -/
def shortLookup : List Char → Char → Option Bool
  | [], _ => none
  | o :: os, c =>
    if o = c then (if c = ':' then none else some (os.head? = some ':'))
    else shortLookup os c

/-- A short option `c` that requires an argument: the argument is the rest `cs` of the `argv`
element when there is one, otherwise the following element `next`; when there is none
either, `getopt_long` returns `'?'`.  The flag tells whether `next` was consumed. -/
def shortArgument (c : Char) (cs : List Char) (next : Option String) :
    List GetoptReturn × Bool :=
  match cs, next with
  | _ :: _, _ => ([⟨c, some (String.mk cs)⟩], false)
  | [], some a => ([⟨c, some a⟩], true)
  | [], none => ([⟨'?', none⟩], false)

/-- Scan of the characters of one `argv` element holding short options (what follows the
leading `-`).  `next` is the following `argv` element, if any.  The result carries the values
returned by the successive calls and whether `next` was consumed as an option argument. -/
def shortCluster (short_opts : List Char) (next : Option String) :
    List Char → List GetoptReturn × Bool
  | [] => ([], false)
  | c :: cs =>
    match shortLookup short_opts c with
    | none =>
      -- invalid option: getopt_long returns '?'
      let r := shortCluster short_opts next cs
      (⟨'?', none⟩ :: r.1, r.2)
    | some false =>
      let r := shortCluster short_opts next cs
      (⟨c, none⟩ :: r.1, r.2)
    | some true => shortArgument c cs next

/-- Outcome of the search of a name in the table of long options. -/
inductive LongMatch where
  | found (p : option)
  | ambiguous
  | unrecognized
  deriving DecidableEq, Repr

/-- Search of a long option name: an exact match wins; otherwise the entries of which the
name is a prefix are collected, and the first is taken unless a later one differs from it in
`has_arg` or `val`, in which case the abbreviation is ambiguous. -/
def longLookup (long_opts : List option) (name : List Char) : LongMatch :=
  match long_opts.find? (fun p => decide (p.name.data = name)) with
  | some p => .found p
  | none =>
    match long_opts.filter (fun p => name.isPrefixOf p.name.data) with
    | [] => .unrecognized
    | p :: ps =>
      if ps.all (fun q => decide (q.has_arg = p.has_arg ∧ q.val = p.val)) then .found p
      else .ambiguous

/-- Handling of one `argv` element that starts with `--`: `nextchar` is what follows the two
dashes and `next` the following `argv` element, if any.  The result is the value returned and
whether `next` was consumed as the option argument. -/
def process_long_option (long_opts : List option) (nextchar : List Char)
    (next : Option String) : GetoptReturn × Bool :=
  match longLookup long_opts (nextchar.takeWhile (fun c => c != '=')) with
  | .ambiguous => (⟨'?', none⟩, false)
  | .unrecognized => (⟨'?', none⟩, false)
  | .found p =>
    match nextchar.dropWhile (fun c => c != '='), p.has_arg, next with
    | _ :: value, true, _ => (⟨p.val, some (String.mk value)⟩, false)  -- --name=value
    | _ :: _, false, _ => (⟨'?', none⟩, false)           -- option does not allow an argument
    | [], true, some a => (⟨p.val, some a⟩, true)
    | [], true, none => (⟨'?', none⟩, false)             -- option requires an argument
    | [], false, _ => (⟨p.val, none⟩, false)

/-- The values returned by the successive calls of `getopt_long` over the `argv` elements
that remain to be scanned, up to the call that returns `-1`.  The flag tells that the first
remaining element was already consumed as the argument of the preceding option.  Elements
that are not options (not starting with `-`, or `-` alone) are skipped, which is the default
permuting behaviour of GNU `getopt_long`; the element `--` ends the scan. -/
def getopt_scan (short_opts : List Char) (long_opts : List option) :
    Bool → List String → List GetoptReturn
  | _, [] => []
  | true, _ :: rest => getopt_scan short_opts long_opts false rest
  | false, a :: rest =>
    match a.data with
    | c₀ :: c₁ :: cs =>
      if c₀ = '-' then
        if c₁ = '-' then
          match cs with
          | [] => []
          | _ :: _ =>
            let r := process_long_option long_opts cs rest.head?
            r.1 :: getopt_scan short_opts long_opts r.2 rest
        else
          let r := shortCluster short_opts rest.head? (c₁ :: cs)
          r.1 ++ getopt_scan short_opts long_opts r.2 rest
      else getopt_scan short_opts long_opts false rest
    | _ => getopt_scan short_opts long_opts false rest

/-- The values returned by `getopt_long(argc, argv, short_opts, long_opts, nullptr)` called
repeatedly from its initial state (`optind = 1`), `args` being `argv[1 .. argc-1]`. -/
def getopt_returns (short_opts : String) (long_opts : List option) (args : List String) :
    List GetoptReturn :=
  getopt_scan short_opts.data long_opts false args

/-! ## `args.h`: the configuration -/

/-- The global variables of `args.h`.  A `char*` is `none` when it is `NULL`. -/
structure Globals where
  model : Option String
  scorer : Option String
  audio : Option String
  beam_width : Int
  set_alphabeta : Bool
  lm_alpha : CFloat
  lm_beta : CFloat
  show_times : Bool
  has_versions : Bool
  extended_metadata : Bool
  json_output : Bool
  stream_size : Int
  deriving DecidableEq, Repr

/-- The values the global variables are initialised with (lines 13 to 35). -/
def Globals.initial : Globals where
  model := none
  scorer := none
  audio := none
  beam_width := 500
  set_alphabeta := false
  lm_alpha := CFloat.zero
  lm_beta := CFloat.zero
  show_times := false
  has_versions := false
  extended_metadata := false
  json_output := false
  stream_size := 0

/-! ## `args.h`: output and control -/

/-- One thing `args.h` does to report to the user: writing a text to `std::cout`, or
calling the external `DS_PrintVersions()`, whose output is not described by `args.h`.  The
message `getopt_long` itself writes to `stderr` when it returns `'?'` is not recorded. -/
inductive Output where
  | text (s : String)
  | versions
  deriving DecidableEq, Repr

/-- How control leaves `ProcessArgs`: by `return`, by `exit` inside `PrintHelp`, or by
undefined behaviour (`atoi` or `atof` applied to a null `optarg`). -/
inductive Ending where
  | returned (value : Bool)
  | exited (status : Int)
  | undefined
  deriving DecidableEq, Repr

/-- What a call of `ProcessArgs` does: what it reports, how it ends, and the global variables
at that moment. -/
structure Result where
  out : List Output
  ending : Ending
  globals : Globals
  deriving DecidableEq, Repr

/-- The text `PrintHelp(bin)` writes to `std::cout` (lines 39 to 55). -/
def usage (bin : String) : String :=
  "Usage: " ++ bin ++ " --model MODEL [--scorer SCORER] --audio AUDIO [-t] [-e]\n" ++
  "\n" ++
  "Running DeepSpeech inference.\n" ++
  "\n" ++
  "\t--model MODEL\t\tPath to the model (protocol buffer binary file)\n" ++
  "\t--scorer SCORER\t\tPath to the external scorer file\n" ++
  "\t--audio AUDIO\t\tPath to the audio file to run (WAV format)\n" ++
  "\t--beam_width BEAM_WIDTH\tValue for decoder beam width (int)\n" ++
  "\t--lm_alpha LM_ALPHA\tValue for language model alpha param (float)\n" ++
  "\t--lm_beta LM_BETA\tValue for language model beta param (float)\n" ++
  "\t-t\t\t\tRun in benchmark mode, output mfcc & inference time\n" ++
  "\t--extended\t\tOutput string from extended metadata\n" ++
  "\t--json\t\t\tExtended output, shows word timings as JSON\n" ++
  "\t--stream size\t\tRun in stream mode, output intermediate results\n" ++
  "\t--help\t\t\tShow help\n" ++
  "\t--version\t\tPrint version and exits\n"

/-- The function `PrintHelp`: writes the usage text, calls `DS_PrintVersions()` and ends the
process with `exit(1)`; it never returns to its caller. -/
def PrintHelp (bin : String) (g : Globals) : Result :=
  { out := [Output.text (usage bin), Output.versions], ending := Ending.exited 1, globals := g }

/-- The diagnostic written when the stream size is rejected (line 154). -/
def streamDiagnostic : String := "Stream buffer size must be multiples of 160\n"

/-! ## `args.h`: `ProcessArgs` -/

/-- The option string of `ProcessArgs` (line 62). -/
def short_opts : String := "m:l:a:b:c:d:tejs:vh"

/-- The table of long options of `ProcessArgs` (lines 63 to 77), without its terminating
all-zero entry. -/
def long_opts : List option :=
  [ ⟨"model", required_argument, 'm'⟩,
    ⟨"scorer", required_argument, 'l'⟩,
    ⟨"audio", required_argument, 'a'⟩,
    ⟨"beam_width", required_argument, 'b'⟩,
    ⟨"lm_alpha", required_argument, 'c'⟩,
    ⟨"lm_beta", required_argument, 'd'⟩,
    ⟨"t", no_argument, 't'⟩,
    ⟨"extended", no_argument, 'e'⟩,
    ⟨"json", no_argument, 'j'⟩,
    ⟨"stream", required_argument, 's'⟩,
    ⟨"version", no_argument, 'v'⟩,
    ⟨"help", no_argument, 'h'⟩ ]

/-- What one pass through the `switch` does: the loop goes on with updated globals, or
`PrintHelp` is called, or the behaviour is undefined. -/
inductive Step where
  | next (g : Globals)
  | help
  | undefined
  deriving DecidableEq, Repr

/-- The `switch (opt)` statement of `ProcessArgs` (lines 86 to 139), `optarg` being the value
of the global `optarg` left by `getopt_long`. -/
def switch (g : Globals) (opt : Char) (optarg : Option String) : Step :=
  match opt, optarg with
  | 'm', _ => .next { g with model := optarg }
  | 'l', _ => .next { g with scorer := optarg }
  | 'a', _ => .next { g with audio := optarg }
  | 'b', some s => .next { g with beam_width := atoi s }
  | 'b', none => .undefined
  | 'c', some s => .next { g with set_alphabeta := true, lm_alpha := atof s }
  | 'c', none => .undefined
  | 'd', some s => .next { g with set_alphabeta := true, lm_beta := atof s }
  | 'd', none => .undefined
  | 't', _ => .next { g with show_times := true }
  | 'e', _ => .next { g with extended_metadata := true }
  | 'j', _ => .next { g with json_output := true }
  | 's', some s => .next { g with stream_size := atoi s }
  | 's', none => .undefined
  | 'v', _ => .next { g with has_versions := true }
  | _, _ => .help  -- 'h', '?' and default

/-- How the `while (true)` loop of `ProcessArgs` ends: `getopt_long` returned `-1` and the
loop was left by `break`, or control left the function from inside the loop. -/
inductive Scan where
  | finished (g : Globals)
  | left (r : Result)
  deriving DecidableEq, Repr

/-- The `while (true)` loop of `ProcessArgs` (lines 79 to 140), run over the values that the
successive calls of `getopt_long` return; the empty list is the call that returns `-1`. -/
def ProcessArgs.loop (bin : String) : List GetoptReturn → Globals → Scan
  | [], g => Scan.finished g
  | r :: rs, g =>
    match switch g r.opt r.optarg with
    | Step.next g' => ProcessArgs.loop bin rs g'
    | Step.help => Scan.left (PrintHelp bin g)
    | Step.undefined => Scan.left { out := [], ending := Ending.undefined, globals := g }

/-- The checks of `ProcessArgs` that follow the loop (lines 142 to 158). -/
def ProcessArgs.checks (bin : String) (g : Globals) : Result :=
  if g.has_versions then
    { out := [Output.versions], ending := Ending.returned false, globals := g }
  else if g.model.isNone || g.audio.isNone then
    PrintHelp bin g
  else if g.stream_size < 0 || Int.tmod g.stream_size 160 != 0 then
    { out := [Output.text streamDiagnostic], ending := Ending.returned false, globals := g }
  else
    { out := [], ending := Ending.returned true, globals := g }

/-- The function `ProcessArgs(argc, argv)`, called with the global variables holding `g`:
`bin` is `argv[0]` and `args` is `argv[1 .. argc-1]`. -/
def ProcessArgs (g : Globals) (bin : String) (args : List String) : Result :=
  match ProcessArgs.loop bin (getopt_returns short_opts long_opts args) g with
  | Scan.left r => r
  | Scan.finished g' => ProcessArgs.checks bin g'

/-! ## Vocabulary for the statements -/

/-- A value returned by `getopt_long` is well formed for the options of `ProcessArgs`: an
option that requires an argument comes with a non-null `optarg`, and an option without
argument, or the error value `'?'`, comes with a null `optarg`. -/
def GetoptReturn.wellFormed (r : GetoptReturn) : Prop :=
  (r.opt ∈ ['m', 'l', 'a', 'b', 'c', 'd', 's'] ∧ r.optarg ≠ none) ∨
  (r.opt ∈ ['t', 'e', 'j', 'v', 'h', '?'] ∧ r.optarg = none)

/-- The option with value `c` occurs in the invocation: one of the calls of `getopt_long`
returns `c`.  For `'?'` this is an option that is not recognised, is ambiguous, lacks its
required argument or has an argument it does not allow. -/
def optionSeen (c : Char) (args : List String) : Prop :=
  ∃ r ∈ getopt_returns short_opts long_opts args, r.opt = c

instance (c : Char) (args : List String) : Decidable (optionSeen c args) := by
  unfold optionSeen
  infer_instance

/-- The "validation failed" outcome in the words of the specification: `ProcessArgs` returns
`false` to its caller after it wrote the usage text or the stream size diagnostic. -/
def Result.validationFailed (bin : String) (r : Result) : Prop :=
  r.ending = Ending.returned false ∧
    (Output.text (usage bin) ∈ r.out ∨ Output.text streamDiagnostic ∈ r.out)

/-- The "versions printed, do not proceed" outcome in the words of the specification: the
version text is what was written, and `ProcessArgs` returns `false`. -/
def Result.versionsPrinted (r : Result) : Prop :=
  r.out = [Output.versions] ∧ r.ending = Ending.returned false

/-- An option boundary follows the `argv` elements `pre`: whatever comes after them is
scanned afresh, as the start of a new option.  This fails when `pre` ends with an option
still waiting for its argument (the next element is then that argument), and when `pre`
holds the terminator `--` (what comes after is then not scanned). -/
def optionBoundary (pre : List String) : Prop :=
  ∀ suffix, getopt_returns short_opts long_opts (pre ++ suffix) =
    getopt_returns short_opts long_opts pre ++ getopt_returns short_opts long_opts suffix

/-- The text starts, after optional white space, with an optionally signed decimal digit:
the condition under which `atoi` finds a number to convert. -/
def startsWithNumber (t : String) : Bool :=
  match t.data.dropWhile isspace with
  | '-' :: c :: _ => c.isDigit
  | '+' :: c :: _ => c.isDigit
  | c :: _ => c.isDigit
  | [] => false

/-- The argument of the last occurrence of the option `c` among the values returned by
`getopt_long`; `none` when the option does not occur. -/
def lastOptarg (c : Char) (rs : List GetoptReturn) : Option String :=
  ((rs.filter (fun r => decide (r.opt = c))).getLast?).bind GetoptReturn.optarg

/-- The option `c` occurs among the values returned by `getopt_long`. -/
def occurs (c : Char) (rs : List GetoptReturn) : Bool :=
  rs.any (fun r => decide (r.opt = c))

/-- The configuration that the options `rs` describe, option by option: a path or number is
the argument of the last occurrence of its option, or the initial value when the option does
not occur; a toggle is set when its option occurs. -/
def described (rs : List GetoptReturn) : Globals where
  model := lastOptarg 'm' rs
  scorer := lastOptarg 'l' rs
  audio := lastOptarg 'a' rs
  beam_width := match lastOptarg 'b' rs with
    | some t => atoi t
    | none => 500
  set_alphabeta := occurs 'c' rs || occurs 'd' rs
  lm_alpha := match lastOptarg 'c' rs with
    | some t => atof t
    | none => CFloat.zero
  lm_beta := match lastOptarg 'd' rs with
    | some t => atof t
    | none => CFloat.zero
  show_times := occurs 't' rs
  has_versions := occurs 'v' rs
  extended_metadata := occurs 'e' rs
  json_output := occurs 'j' rs
  stream_size := match lastOptarg 's' rs with
    | some t => atoi t
    | none => 0

/-- No option that takes a value occurs more than once among the values returned. -/
def valueOnce (rs : List GetoptReturn) : Prop :=
  ∀ c ∈ ['m', 'l', 'a', 'b', 'c', 'd', 's'],
    (rs.filter (fun r => decide (r.opt = c))).length ≤ 1

instance (rs : List GetoptReturn) : Decidable (valueOnce rs) := by
  unfold valueOnce
  infer_instance

/-! ## Lemmas on `atoi` -/

theorem digitChar_spec (d : Nat) (hd : d < 10) :
    (Nat.digitChar d).isDigit = true ∧ (Nat.digitChar d).toNat - '0'.toNat = d ∧
    isspace (Nat.digitChar d) = false ∧ Nat.digitChar d ≠ '-' ∧ Nat.digitChar d ≠ '+' := by
  interval_cases d <;> decide

theorem digitsValue_toDigitsCore (fuel : Nat) :
    ∀ n, n < fuel → ∃ k, ∀ ds acc,
      digitsValue (Nat.toDigitsCore 10 fuel n ds) acc = digitsValue ds (acc * 10 ^ k + n) := by
  induction fuel with
  | zero => intro n hn; exact absurd hn (Nat.not_lt_zero n)
  | succ fuel ih =>
    intro n hn
    have hd := digitChar_spec (n % 10) (Nat.mod_lt n (by norm_num))
    by_cases h0 : n / 10 = 0
    · refine ⟨1, fun ds acc => ?_⟩
      have hn' : n % 10 = n := Nat.mod_eq_of_lt (by omega)
      rw [hn'] at hd
      simp only [Nat.toDigitsCore, h0, if_true, digitsValue, hd.1, hd.2.1, hn', pow_one]
    · obtain ⟨k, hk⟩ := ih (n / 10) (by omega)
      refine ⟨k + 1, fun ds acc => ?_⟩
      simp only [Nat.toDigitsCore, h0, if_false, hk, digitsValue, hd.1, hd.2.1, if_true]
      congr 1
      have := Nat.div_add_mod n 10
      rw [pow_succ]
      nlinarith

theorem toDigitsCore_head (fuel : Nat) :
    ∀ n ds, n < fuel → ∃ d tl, d < 10 ∧ Nat.toDigitsCore 10 fuel n ds = Nat.digitChar d :: tl := by
  induction fuel with
  | zero => intro n _ hn; exact absurd hn (Nat.not_lt_zero n)
  | succ fuel ih =>
    intro n ds hn
    by_cases h0 : n / 10 = 0
    · exact ⟨n % 10, ds, Nat.mod_lt n (by norm_num), by simp [Nat.toDigitsCore, h0]⟩
    · obtain ⟨d, tl, hd, h⟩ := ih (n / 10) (Nat.digitChar (n % 10) :: ds) (by omega)
      exact ⟨d, tl, hd, by simp only [Nat.toDigitsCore, h0, if_false, h]⟩

theorem strtol_repr (m : Nat) :
    strtol (Nat.repr m).data = min (m : Int) LONG_MAX ∧
    strtol ('-' :: (Nat.repr m).data) = max (-(m : Int)) LONG_MIN := by
  obtain ⟨k, hk⟩ := digitsValue_toDigitsCore (m + 1) m (Nat.lt_succ_self m)
  obtain ⟨d, tl, hd, hl⟩ := toDigitsCore_head (m + 1) m [] (Nat.lt_succ_self m)
  have hv : digitsValue (Nat.toDigitsCore 10 (m + 1) m []) 0 = m := by
    rw [hk]; simp [digitsValue]
  have hc := digitChar_spec d hd
  constructor
  · have hdrop : (Nat.repr m).data.dropWhile isspace = Nat.toDigitsCore 10 (m + 1) m [] := by
      simp only [Nat.repr, Nat.toDigits, List.asString, hl, List.dropWhile, hc.2.2.1]
    unfold strtol
    rw [hdrop]
    have : strtolSigned (Nat.toDigitsCore 10 (m + 1) m [])
        = min (digitsValue (Nat.toDigitsCore 10 (m + 1) m []) 0 : Int) LONG_MAX := by
      unfold strtolSigned
      split
      · rename_i h; rw [hl] at h; exact absurd (List.cons.inj h).1 hc.2.2.2.1
      · rename_i h; rw [hl] at h; exact absurd (List.cons.inj h).1 hc.2.2.2.2
      · rfl
    rw [this, hv]
  · have : strtol ('-' :: (Nat.repr m).data)
        = max (-(digitsValue (Nat.repr m).data 0 : Int)) LONG_MIN := by
      simp [strtol, List.dropWhile, isspace, strtolSigned]
    rw [this]
    simp only [Nat.repr, Nat.toDigits, List.asString, hv]

/-- On the decimal numeral of an integer in the range of `int`, `atoi` gives that integer. -/
theorem atoi_toString (n : Int) (h₁ : -(2 ^ 31) ≤ n) (h₂ : n < 2 ^ 31) :
    atoi (toString n) = n := by
  unfold atoi
  cases n with
  | ofNat m =>
    have : (toString (Int.ofNat m)).data = (Nat.repr m).data := rfl
    rw [this, (strtol_repr m).1]
    simp only [Int.ofNat_eq_coe] at h₁ h₂ ⊢
    have : min (m : Int) LONG_MAX = m := by
      apply min_eq_left; unfold LONG_MAX; omega
    rw [this]
    unfold toInt
    omega
  | negSucc m =>
    have : (toString (Int.negSucc m)).data = '-' :: (Nat.repr (m + 1)).data := by
      show ("-" ++ Nat.repr (m + 1)).data = _
      simp
    rw [this, (strtol_repr (m + 1)).2]
    have hneg : Int.negSucc m = -((m + 1 : Nat) : Int) := rfl
    rw [hneg] at h₁ ⊢
    have : max (-((m + 1 : Nat) : Int)) LONG_MIN = -((m + 1 : Nat) : Int) := by
      apply max_eq_left; unfold LONG_MIN; omega
    rw [this]
    unfold toInt
    omega

/-! ## Lemmas on `getopt_long` -/

theorem shortLookup_of_not_mem (os : List Char) (c : Char) (h : c ∉ os) :
    shortLookup os c = none := by
  induction os with
  | nil => rfl
  | cons o os ih =>
    simp only [List.mem_cons, not_or] at h
    simp [shortLookup, Ne.symm h.1, ih h.2]

theorem shortLookup_short_opts (c : Char) (b : Bool)
    (h : shortLookup short_opts.data c = some b) :
    (b = true ∧ c ∈ ['m', 'l', 'a', 'b', 'c', 'd', 's']) ∨
    (b = false ∧ c ∈ ['t', 'e', 'j', 'v', 'h']) := by
  by_cases hc : c ∈ short_opts.data
  · have hc' : c ∈ ['m', ':', 'l', 'a', 'b', 'c', 'd', 't', 'e', 'j', 's', 'v', 'h'] := by
      revert hc
      simp only [short_opts, List.mem_cons, List.mem_singleton, List.not_mem_nil, or_false]
      tauto
    simp only [List.mem_cons, List.mem_singleton, List.not_mem_nil, or_false] at hc'
    revert b
    rcases hc' with rfl | rfl | rfl | rfl | rfl | rfl | rfl | rfl | rfl | rfl | rfl | rfl | rfl <;>
      decide
  · rw [shortLookup_of_not_mem _ _ hc] at h
    cases h

theorem shortArgument_wellFormed (c : Char) (hc : c ∈ ['m', 'l', 'a', 'b', 'c', 'd', 's'])
    (cs : List Char) (next : Option String) :
    ∀ r ∈ (shortArgument c cs next).1, r.wellFormed := by
  intro r hr
  unfold shortArgument at hr
  split at hr <;> simp only [List.mem_singleton] at hr <;> subst hr
  · exact Or.inl ⟨hc, by simp⟩
  · exact Or.inl ⟨hc, by simp⟩
  · exact Or.inr ⟨by simp, rfl⟩

theorem shortCluster_wellFormed (next : Option String) (cs : List Char) :
    ∀ r ∈ (shortCluster short_opts.data next cs).1, r.wellFormed := by
  induction cs with
  | nil => simp [shortCluster]
  | cons c cs ih =>
    intro r hr
    rw [shortCluster] at hr
    split at hr
    · simp only [List.mem_cons] at hr
      rcases hr with rfl | hr
      · exact Or.inr ⟨by simp, rfl⟩
      · exact ih r hr
    · rename_i hl
      simp only [List.mem_cons] at hr
      rcases hr with rfl | hr
      · rcases shortLookup_short_opts c false hl with ⟨h, _⟩ | ⟨_, h⟩
        · cases h
        · refine Or.inr ⟨?_, rfl⟩
          simp only [List.mem_cons, List.mem_singleton, List.not_mem_nil, or_false] at h ⊢
          tauto
      · exact ih r hr
    · rename_i hl
      rcases shortLookup_short_opts c true hl with ⟨_, h⟩ | ⟨h, _⟩
      · exact shortArgument_wellFormed c h cs next r hr
      · cases h

theorem longLookup_mem (lo : List option) (name : List Char) (p : option)
    (h : longLookup lo name = LongMatch.found p) : p ∈ lo := by
  unfold longLookup at h
  split at h
  · rename_i q hq
    cases h
    exact List.mem_of_find?_eq_some hq
  · split at h
    · cases h
    · rename_i q qs hq
      split_ifs at h
      cases h
      have : p ∈ lo.filter (fun p => name.isPrefixOf p.name.data) := by
        rw [hq]; exact List.mem_cons_self _ _
      exact (List.mem_filter.mp this).1

theorem long_opts_table (p : option) (hp : p ∈ long_opts) :
    (p.has_arg = true ∧ p.val ∈ ['m', 'l', 'a', 'b', 'c', 'd', 's']) ∨
    (p.has_arg = false ∧ p.val ∈ ['t', 'e', 'j', 'v', 'h']) := by
  simp only [long_opts, List.mem_cons, List.mem_singleton, List.not_mem_nil, or_false] at hp
  rcases hp with rfl | rfl | rfl | rfl | rfl | rfl | rfl | rfl | rfl | rfl | rfl | rfl <;> decide

theorem process_long_option_wellFormed (nextchar : List Char) (next : Option String) :
    (process_long_option long_opts nextchar next).1.wellFormed := by
  unfold process_long_option
  split
  · exact Or.inr ⟨by simp, rfl⟩
  · exact Or.inr ⟨by simp, rfl⟩
  · rename_i p hp
    have hq : ('?' : Char) ∈ ['t', 'e', 'j', 'v', 'h', '?'] := by simp
    rcases long_opts_table p (longLookup_mem _ _ _ hp) with ⟨ha, hv⟩ | ⟨ha, hv⟩
    · split
      · exact Or.inl ⟨hv, by simp⟩
      · exact Or.inr ⟨hq, rfl⟩
      · exact Or.inl ⟨hv, by simp⟩
      · exact Or.inr ⟨hq, rfl⟩
      · simp_all
    · have hv' : p.val ∈ ['t', 'e', 'j', 'v', 'h', '?'] := by
        simp only [List.mem_cons, List.mem_singleton, List.not_mem_nil, or_false] at hv ⊢
        tauto
      split
      · simp_all
      · exact Or.inr ⟨hq, rfl⟩
      · simp_all
      · exact Or.inr ⟨hq, rfl⟩
      · exact Or.inr ⟨hv', rfl⟩

theorem getopt_scan_wellFormed (args : List String) :
    ∀ (b : Bool), ∀ r ∈ getopt_scan short_opts.data long_opts b args, r.wellFormed := by
  induction args with
  | nil => intro b r hr; simp [getopt_scan] at hr
  | cons a rest ih =>
    intro b r hr
    cases b with
    | true => exact ih false r (by simpa [getopt_scan] using hr)
    | false =>
      unfold getopt_scan at hr
      split at hr
      · split_ifs at hr
        · split at hr
          · simp at hr
          · simp only [List.mem_cons] at hr
            rcases hr with rfl | hr
            · exact process_long_option_wellFormed _ _
            · exact ih _ r hr
        · simp only [List.mem_append] at hr
          rcases hr with hr | hr
          · exact shortCluster_wellFormed _ _ r hr
          · exact ih _ r hr
        · exact ih _ r hr
      · exact ih _ r hr

/-- Every value `getopt_long` returns to `ProcessArgs` is well formed. -/
theorem getopt_returns_wellFormed (args : List String) :
    ∀ r ∈ getopt_returns short_opts long_opts args, r.wellFormed :=
  getopt_scan_wellFormed args false

/-- The `argv` element that follows an option requiring an argument is that argument,
whatever its text, and the scan goes on after it; so a text such as `--help` in that place
is not an option. -/
theorem getopt_returns_model (x : String) (rest : List String) :
    getopt_returns short_opts long_opts ("--model" :: x :: rest) =
      ⟨'m', some x⟩ :: getopt_returns short_opts long_opts rest := by
  rfl

/-- The `argv` element `--` ends the scan: what follows it is not an option. -/
theorem getopt_returns_terminator (rest : List String) :
    getopt_returns short_opts long_opts ("--" :: rest) = [] := by
  rfl

/-! ## Lemmas on the `switch` and on the loop -/

/-- What the `switch` does on a well-formed value: `'h'` and `'?'` lead to `PrintHelp`, every
other value to the next iteration, with the listed effect on the globals. -/
theorem switch_wellFormed (g : Globals) (r : GetoptReturn) (hwf : r.wellFormed) :
    ((r.opt = 'h' ∨ r.opt = '?') ∧ switch g r.opt r.optarg = Step.help) ∨
    (r.opt ≠ 'h' ∧ r.opt ≠ '?' ∧ ∃ g', switch g r.opt r.optarg = Step.next g' ∧
      (g'.has_versions = true ↔ g.has_versions = true ∨ r.opt = 'v') ∧
      (g'.set_alphabeta = true ↔ g.set_alphabeta = true ∨ r.opt = 'c' ∨ r.opt = 'd') ∧
      (g'.model = if r.opt = 'm' then r.optarg else g.model) ∧
      (g'.audio = if r.opt = 'a' then r.optarg else g.audio) ∧
      (r.opt ≠ 's' → g'.stream_size = g.stream_size) ∧
      (r.opt = 's' → ∃ t, r.optarg = some t ∧ g'.stream_size = atoi t)) := by
  obtain ⟨c, a⟩ := r
  simp only [GetoptReturn.wellFormed, List.mem_cons, List.mem_singleton, List.not_mem_nil,
    or_false] at hwf
  rcases hwf with ⟨hc, ha⟩ | ⟨hc, rfl⟩
  · obtain ⟨t, rfl⟩ := Option.ne_none_iff_exists'.mp ha
    rcases hc with rfl | rfl | rfl | rfl | rfl | rfl | rfl <;>
      exact Or.inr ⟨by simp, by simp, _, rfl, by simp⟩
  · rcases hc with rfl | rfl | rfl | rfl | rfl | rfl
    · exact Or.inr ⟨by simp, by simp, _, rfl, by simp⟩
    · exact Or.inr ⟨by simp, by simp, _, rfl, by simp⟩
    · exact Or.inr ⟨by simp, by simp, _, rfl, by simp⟩
    · exact Or.inr ⟨by simp, by simp, _, rfl, by simp⟩
    · exact Or.inl ⟨Or.inl rfl, rfl⟩
    · exact Or.inl ⟨Or.inr rfl, rfl⟩

theorem loop_append (bin : String) (rs₁ rs₂ : List GetoptReturn) (g : Globals) :
    ProcessArgs.loop bin (rs₁ ++ rs₂) g =
      match ProcessArgs.loop bin rs₁ g with
      | Scan.finished g' => ProcessArgs.loop bin rs₂ g'
      | Scan.left r => Scan.left r := by
  induction rs₁ generalizing g with
  | nil => rfl
  | cons r rs ih =>
    simp only [List.cons_append, ProcessArgs.loop]
    cases switch g r.opt r.optarg with
    | next g' => exact ih g'
    | help => rfl
    | undefined => rfl

/-- A scan without help or unknown option reaches the end of the loop. -/
theorem loop_finished (bin : String) (rs : List GetoptReturn) (g : Globals)
    (hwf : ∀ r ∈ rs, r.wellFormed) (hno : ∀ r ∈ rs, r.opt ≠ 'h' ∧ r.opt ≠ '?') :
    ∃ g', ProcessArgs.loop bin rs g = Scan.finished g' := by
  induction rs generalizing g with
  | nil => exact ⟨g, rfl⟩
  | cons r rs ih =>
    have hr := hno r (List.mem_cons_self _ _)
    rcases switch_wellFormed g r (hwf r (List.mem_cons_self _ _)) with ⟨h, _⟩ | ⟨_, _, g₁, hs, _⟩
    · rcases h with h | h
      · exact absurd h hr.1
      · exact absurd h hr.2
    · obtain ⟨g', hg'⟩ := ih g₁ (fun x hx => hwf x (List.mem_cons_of_mem _ hx))
        (fun x hx => hno x (List.mem_cons_of_mem _ hx))
      exact ⟨g', by simp only [ProcessArgs.loop, hs, hg']⟩

/-- The globals at the end of a completed scan, field by field. -/
theorem loop_globals (bin : String) (rs : List GetoptReturn) (g g' : Globals)
    (hwf : ∀ r ∈ rs, r.wellFormed) (h : ProcessArgs.loop bin rs g = Scan.finished g') :
    (g'.has_versions = true ↔ g.has_versions = true ∨ ∃ r ∈ rs, r.opt = 'v') ∧
    (g'.set_alphabeta = true ↔
      g.set_alphabeta = true ∨ ∃ r ∈ rs, r.opt = 'c' ∨ r.opt = 'd') ∧
    (g'.model ≠ none ↔ g.model ≠ none ∨ ∃ r ∈ rs, r.opt = 'm') ∧
    (g'.audio ≠ none ↔ g.audio ≠ none ∨ ∃ r ∈ rs, r.opt = 'a') ∧
    ((∀ r ∈ rs, r.opt ≠ 's') → g'.stream_size = g.stream_size) := by
  induction rs generalizing g with
  | nil =>
    simp only [ProcessArgs.loop, Scan.finished.injEq] at h
    subst h
    simp
  | cons r rs ih =>
    have hr := hwf r (List.mem_cons_self _ _)
    rcases switch_wellFormed g r hr with ⟨_, hs⟩ | ⟨_, _, g₁, hs, hv, hab, hm, ha, hst, _⟩
    · simp [ProcessArgs.loop, hs] at h
    · simp only [ProcessArgs.loop, hs] at h
      obtain ⟨iv, iab, im, ia, ist⟩ := ih g₁ (fun x hx => hwf x (List.mem_cons_of_mem _ hx)) h
      have hopt : r.optarg ≠ none ∨ (r.opt ≠ 'm' ∧ r.opt ≠ 'a') := by
        rcases hr with ⟨_, h⟩ | ⟨h, _⟩
        · exact Or.inl h
        · refine Or.inr ⟨?_, ?_⟩ <;> (intro hc; simp [hc] at h)
      refine ⟨?_, ?_, ?_, ?_, ?_⟩
      · rw [iv, hv, List.exists_mem_cons_iff, or_assoc]
      · rw [iab, hab, List.exists_mem_cons_iff, or_assoc]
      · rw [im, hm, List.exists_mem_cons_iff]
        clear iv iab im ia ist hv hab hm ha hst ih hwf h hs
        by_cases hc : r.opt = 'm'
        · have : r.optarg ≠ none := by tauto
          simp [hc, this]
        · simp [hc]
      · rw [ia, ha, List.exists_mem_cons_iff]
        clear iv iab im ia ist hv hab hm ha hst ih hwf h hs
        by_cases hc : r.opt = 'a'
        · have : r.optarg ≠ none := by tauto
          simp [hc, this]
        · simp [hc]
      · intro hs'
        rw [ist (fun x hx => hs' x (List.mem_cons_of_mem _ hx)),
          hst (hs' r (List.mem_cons_self _ _))]

/-- A scan that meets a help or unknown option ends in `PrintHelp` at the first of them,
with the globals as the options before it left them. -/
theorem loop_help (bin : String) (rs : List GetoptReturn) (g : Globals)
    (hwf : ∀ r ∈ rs, r.wellFormed) (hex : ∃ r ∈ rs, r.opt = 'h' ∨ r.opt = '?') :
    ∃ pre r post g', rs = pre ++ r :: post ∧ (r.opt = 'h' ∨ r.opt = '?') ∧
      (∀ x ∈ pre, x.opt ≠ 'h' ∧ x.opt ≠ '?') ∧
      ProcessArgs.loop bin pre g = Scan.finished g' ∧
      ProcessArgs.loop bin rs g = Scan.left (PrintHelp bin g') := by
  induction rs generalizing g with
  | nil => simp at hex
  | cons r rs ih =>
    rcases switch_wellFormed g r (hwf r (List.mem_cons_self _ _)) with
      ⟨h, hs⟩ | ⟨h₁, h₂, g₁, hs, _⟩
    · exact ⟨[], r, rs, g, rfl, h, by simp, rfl, by simp only [ProcessArgs.loop, hs]⟩
    · have hex' : ∃ x ∈ rs, x.opt = 'h' ∨ x.opt = '?' := by
        obtain ⟨x, hx, hx'⟩ := hex
        rcases List.mem_cons.mp hx with rfl | hx
        · rcases hx' with h | h
          · exact absurd h h₁
          · exact absurd h h₂
        · exact ⟨x, hx, hx'⟩
      obtain ⟨pre, x, post, g', e, hx, hpre, hl, hl'⟩ :=
        ih g₁ (fun x hx => hwf x (List.mem_cons_of_mem _ hx)) hex'
      refine ⟨r :: pre, x, post, g', by rw [e]; rfl, hx, ?_, ?_, ?_⟩
      · intro y hy
        rcases List.mem_cons.mp hy with rfl | hy
        · exact ⟨h₁, h₂⟩
        · exact hpre y hy
      · simp only [ProcessArgs.loop, hs, hl]
      · simp only [ProcessArgs.loop, hs, hl']

theorem checks_globals (bin : String) (g : Globals) : (ProcessArgs.checks bin g).globals = g := by
  unfold ProcessArgs.checks PrintHelp
  split_ifs <;> rfl

theorem ProcessArgs_of_finished (g g' : Globals) (bin : String) (args : List String)
    (h : ProcessArgs.loop bin (getopt_returns short_opts long_opts args) g = Scan.finished g') :
    ProcessArgs g bin args = ProcessArgs.checks bin g' := by
  simp only [ProcessArgs, h]

theorem ProcessArgs_of_left (g : Globals) (bin : String) (args : List String) (r : Result)
    (h : ProcessArgs.loop bin (getopt_returns short_opts long_opts args) g = Scan.left r) :
    ProcessArgs g bin args = r := by
  simp only [ProcessArgs, h]

/-- When control leaves the function from inside the loop, it is not by a `return`. -/
theorem loop_left_ending (bin : String) (rs : List GetoptReturn) (g : Globals) (r : Result)
    (h : ProcessArgs.loop bin rs g = Scan.left r) (b : Bool) : r.ending ≠ Ending.returned b := by
  induction rs generalizing g with
  | nil => simp [ProcessArgs.loop] at h
  | cons x xs ih =>
    simp only [ProcessArgs.loop] at h
    split at h
    · exact ih _ h
    · cases h; simp [PrintHelp]
    · cases h; simp

/-- A scan without help or unknown option, started from the initial globals: the loop is
left by `break`, and the globals then record which options were seen. -/
theorem scan_complete (bin : String) (args : List String)
    (hh : ¬ optionSeen 'h' args) (hq : ¬ optionSeen '?' args) :
    ∃ g', ProcessArgs.loop bin (getopt_returns short_opts long_opts args) Globals.initial
        = Scan.finished g' ∧
      ProcessArgs Globals.initial bin args = ProcessArgs.checks bin g' ∧
      (g'.has_versions = true ↔ optionSeen 'v' args) ∧
      (g'.set_alphabeta = true ↔ optionSeen 'c' args ∨ optionSeen 'd' args) ∧
      (g'.model ≠ none ↔ optionSeen 'm' args) ∧
      (g'.audio ≠ none ↔ optionSeen 'a' args) := by
  have hwf := getopt_returns_wellFormed args
  have hno : ∀ r ∈ getopt_returns short_opts long_opts args, r.opt ≠ 'h' ∧ r.opt ≠ '?' :=
    fun r hr => ⟨fun h => hh ⟨r, hr, h⟩, fun h => hq ⟨r, hr, h⟩⟩
  obtain ⟨g', hg'⟩ := loop_finished bin _ Globals.initial hwf hno
  obtain ⟨hv, hab, hm, ha, _⟩ := loop_globals bin _ _ g' hwf hg'
  refine ⟨g', hg', ProcessArgs_of_finished _ _ _ _ hg', ?_, ?_, ?_, ?_⟩
  · rw [hv]; simp [Globals.initial, optionSeen]
  · rw [hab]
    simp only [Globals.initial, optionSeen, Bool.false_eq_true, false_or]
    constructor
    · rintro ⟨r, hr, h | h⟩
      · exact Or.inl ⟨r, hr, h⟩
      · exact Or.inr ⟨r, hr, h⟩
    · rintro (⟨r, hr, h⟩ | ⟨r, hr, h⟩)
      · exact ⟨r, hr, Or.inl h⟩
      · exact ⟨r, hr, Or.inr h⟩
  · rw [hm]; simp [Globals.initial, optionSeen]
  · rw [ha]; simp [Globals.initial, optionSeen]

/-- The stream size at the end of a completed scan is the one the last stream option set. -/
theorem loop_last_stream (bin : String) (pre post : List GetoptReturn) (t : String)
    (g g' : Globals) (hwf : ∀ r ∈ pre ++ ⟨'s', some t⟩ :: post, r.wellFormed)
    (hpost : ∀ r ∈ post, r.opt ≠ 's')
    (h : ProcessArgs.loop bin (pre ++ ⟨'s', some t⟩ :: post) g = Scan.finished g') :
    g'.stream_size = atoi t := by
  rw [loop_append] at h
  split at h
  · rename_i g₁ _
    simp only [ProcessArgs.loop, switch] at h
    have hwf' : ∀ r ∈ post, r.wellFormed := fun r hr =>
      hwf r (List.mem_append_right _ (List.mem_cons_of_mem _ hr))
    rw [(loop_globals bin post _ g' hwf' h).2.2.2.2 hpost]
  · cases h

/-! ## The claims -/

/-- C1: starting from the default configuration, when `ProcessArgs` returns `true` the model
path and the audio path are present, no version option was seen (`has_versions` is false),
and `stream_size` is a non-negative multiple of 160. -/
theorem C1_proceed_invariant (bin : String) (args : List String)
    (h : (ProcessArgs Globals.initial bin args).ending = Ending.returned true) :
    (ProcessArgs Globals.initial bin args).globals.model ≠ none ∧
    (ProcessArgs Globals.initial bin args).globals.audio ≠ none ∧
    (ProcessArgs Globals.initial bin args).globals.has_versions = false ∧
    ¬ optionSeen 'v' args ∧
    0 ≤ (ProcessArgs Globals.initial bin args).globals.stream_size ∧
    (160 : Int) ∣ (ProcessArgs Globals.initial bin args).globals.stream_size := by
  cases hl : ProcessArgs.loop bin (getopt_returns short_opts long_opts args) Globals.initial with
  | left r =>
    rw [ProcessArgs_of_left _ _ _ _ hl] at h
    exact absurd h (loop_left_ending _ _ _ _ hl true)
  | finished g' =>
    have hv := (loop_globals bin _ _ g' (getopt_returns_wellFormed args) hl).1
    rw [ProcessArgs_of_finished _ _ _ _ hl] at h ⊢
    rw [checks_globals]
    unfold ProcessArgs.checks at h
    split_ifs at h with h₁ h₂ h₃
    · cases h
    · cases h
    · cases h
    · simp only [Bool.or_eq_true, Option.isNone_iff_eq_none, not_or] at h₂
      simp only [Bool.or_eq_true, decide_eq_true_eq, bne_iff_ne, ne_eq, not_or, not_lt,
        Decidable.not_not] at h₃
      refine ⟨h₂.1, h₂.2, by simpa using h₁, ?_, h₃.1, Int.dvd_of_tmod_eq_zero h₃.2⟩
      intro hs
      exact h₁ (hv.mpr (Or.inr hs))

/-- Witness of C1 on `deepspeech --model m.pb --audio a.wav --stream 320`. -/
theorem C1_proceed_invariant_witness :
    (ProcessArgs Globals.initial "deepspeech"
        ["--model", "m.pb", "--audio", "a.wav", "--stream", "320"]).ending
      = Ending.returned true ∧
    (ProcessArgs Globals.initial "deepspeech"
        ["--model", "m.pb", "--audio", "a.wav", "--stream", "320"]).globals.stream_size = 320 ∧
    (160 : Int) ∣ (ProcessArgs Globals.initial "deepspeech"
        ["--model", "m.pb", "--audio", "a.wav", "--stream", "320"]).globals.stream_size :=
  ⟨by decide, by decide,
    (C1_proceed_invariant "deepspeech"
      ["--model", "m.pb", "--audio", "a.wav", "--stream", "320"] (by decide)).2.2.2.2.2⟩

/-- What `ProcessArgs` does when the scan completes, no version option was seen and the model
or the audio option is missing: `PrintHelp` is called, so the usage and version texts are
written and the process ends with `exit(1)`. -/
theorem missing_required (bin : String) (args : List String)
    (hma : ¬ optionSeen 'm' args ∨ ¬ optionSeen 'a' args)
    (hh : ¬ optionSeen 'h' args) (hq : ¬ optionSeen '?' args) (hv : ¬ optionSeen 'v' args) :
    (ProcessArgs Globals.initial bin args).out = [Output.text (usage bin), Output.versions] ∧
    (ProcessArgs Globals.initial bin args).ending = Ending.exited 1 := by
  obtain ⟨g', _, hp, hv', _, hm', ha'⟩ := scan_complete bin args hh hq
  have h₁ : g'.has_versions = false := by
    cases hb : g'.has_versions with
    | false => rfl
    | true => exact absurd (hv'.mp hb) hv
  have h₂ : (g'.model.isNone || g'.audio.isNone) = true := by
    simp only [Bool.or_eq_true, Option.isNone_iff_eq_none]
    rcases hma with h | h
    · exact Or.inl (by_contra fun hc => h (hm'.mp hc))
    · exact Or.inr (by_contra fun hc => h (ha'.mp hc))
  rw [hp]
  simp [ProcessArgs.checks, h₁, h₂, PrintHelp]

/-- C2, as amended: for every invocation that contains no model option and no help, unknown
or version option, `ProcessArgs` writes the usage text and the version text and the process
ends with exit status 1 inside `PrintHelp`. -/
theorem C2_missing_model (bin : String) (args : List String)
    (hm : ¬ optionSeen 'm' args)
    (hh : ¬ optionSeen 'h' args) (hq : ¬ optionSeen '?' args) (hv : ¬ optionSeen 'v' args) :
    (ProcessArgs Globals.initial bin args).out = [Output.text (usage bin), Output.versions] ∧
    (ProcessArgs Globals.initial bin args).ending = Ending.exited 1 :=
  missing_required bin args (Or.inl hm) hh hq hv

/-- Witness of C2 on `deepspeech --lm_alpha 0.5`. -/
theorem C2_missing_model_witness :
    (ProcessArgs Globals.initial "deepspeech" ["--lm_alpha", "0.5"]).out
      = [Output.text (usage "deepspeech"), Output.versions] ∧
    (ProcessArgs Globals.initial "deepspeech" ["--lm_alpha", "0.5"]).ending = Ending.exited 1 :=
  C2_missing_model "deepspeech" ["--lm_alpha", "0.5"]
    (by decide) (by decide) (by decide) (by decide)

/-- C2 as stated fails on `deepspeech --version`: there is no model option, and the call
writes the version text alone and returns `false`, the "versions printed" outcome; it is not
"validation failed".  On `deepspeech --lm_alpha 0.5` the process ends with `exit(1)` inside
`PrintHelp`, and no "validation failed" outcome is returned either. -/
theorem C2_counterexample :
    (¬ optionSeen 'm' ["--version"] ∧
      (ProcessArgs Globals.initial "deepspeech" ["--version"]).versionsPrinted ∧
      ¬ (ProcessArgs Globals.initial "deepspeech" ["--version"]).validationFailed
          "deepspeech") ∧
    (¬ optionSeen 'm' ["--lm_alpha", "0.5"] ∧
      (ProcessArgs Globals.initial "deepspeech" ["--lm_alpha", "0.5"]).ending
        = Ending.exited 1 ∧
      ¬ (ProcessArgs Globals.initial "deepspeech" ["--lm_alpha", "0.5"]).validationFailed
          "deepspeech") := by
  have hout : (ProcessArgs Globals.initial "deepspeech" ["--version"]).out
      = [Output.versions] := by decide
  have hend : (ProcessArgs Globals.initial "deepspeech" ["--lm_alpha", "0.5"]).ending
      = Ending.exited 1 := by decide
  refine ⟨⟨by decide, ⟨hout, by decide⟩, ?_⟩, by decide, hend, ?_⟩
  · rintro ⟨_, h | h⟩ <;> (rw [hout] at h; simp at h)
  · rintro ⟨h, _⟩
    rw [hend] at h
    cases h

/-- C3, as amended: for every invocation that contains no audio option and no help, unknown
or version option, `ProcessArgs` writes the usage text and the version text and the process
ends with exit status 1 inside `PrintHelp`; nothing is returned to the caller. -/
theorem C3_missing_audio (bin : String) (args : List String)
    (ha : ¬ optionSeen 'a' args)
    (hh : ¬ optionSeen 'h' args) (hq : ¬ optionSeen '?' args) (hv : ¬ optionSeen 'v' args) :
    (ProcessArgs Globals.initial bin args).out = [Output.text (usage bin), Output.versions] ∧
    (ProcessArgs Globals.initial bin args).ending = Ending.exited 1 ∧
    ∀ b, (ProcessArgs Globals.initial bin args).ending ≠ Ending.returned b := by
  obtain ⟨h₁, h₂⟩ := missing_required bin args (Or.inr ha) hh hq hv
  exact ⟨h₁, h₂, fun b => by rw [h₂]; simp⟩

/-- Witness of C3 on `deepspeech --model m.pb`. -/
theorem C3_missing_audio_witness :
    (ProcessArgs Globals.initial "deepspeech" ["--model", "m.pb"]).out
      = [Output.text (usage "deepspeech"), Output.versions] ∧
    (ProcessArgs Globals.initial "deepspeech" ["--model", "m.pb"]).ending = Ending.exited 1 :=
  have h := C3_missing_audio "deepspeech" ["--model", "m.pb"]
    (by decide) (by decide) (by decide) (by decide)
  ⟨h.1, h.2.1⟩

/-- C3 as stated fails on `deepspeech --model m.pb`: there is no audio option and no help,
unknown or version option, and the process ends with `exit(1)` inside `PrintHelp`; no
"validation failed" outcome is returned to the caller. -/
theorem C3_counterexample :
    ¬ optionSeen 'a' ["--model", "m.pb"] ∧ ¬ optionSeen 'h' ["--model", "m.pb"] ∧
    ¬ optionSeen '?' ["--model", "m.pb"] ∧ ¬ optionSeen 'v' ["--model", "m.pb"] ∧
    (ProcessArgs Globals.initial "deepspeech" ["--model", "m.pb"]).ending = Ending.exited 1 ∧
    ¬ (ProcessArgs Globals.initial "deepspeech" ["--model", "m.pb"]).validationFailed
        "deepspeech" := by
  have he : (ProcessArgs Globals.initial "deepspeech" ["--model", "m.pb"]).ending
      = Ending.exited 1 := by decide
  refine ⟨by decide, by decide, by decide, by decide, he, ?_⟩
  rintro ⟨h, _⟩
  rw [he] at h
  cases h

/-- What remains of `ProcessArgs` for an invocation that supplies model and audio, has no
help, unknown or version option, and whose last stream option has the argument `t`: the
stream size test, on the value `atoi t`. -/
theorem stream_check (bin : String) (args : List String)
    (pre post : List GetoptReturn) (t : String)
    (hm : optionSeen 'm' args) (ha : optionSeen 'a' args)
    (hh : ¬ optionSeen 'h' args) (hq : ¬ optionSeen '?' args) (hv : ¬ optionSeen 'v' args)
    (hs : getopt_returns short_opts long_opts args = pre ++ ⟨'s', some t⟩ :: post)
    (hpost : ∀ r ∈ post, r.opt ≠ 's') :
    ∃ g', g'.stream_size = atoi t ∧
      ProcessArgs Globals.initial bin args =
        if g'.stream_size < 0 || Int.tmod g'.stream_size 160 != 0 then
          { out := [Output.text streamDiagnostic], ending := Ending.returned false,
            globals := g' }
        else { out := [], ending := Ending.returned true, globals := g' } := by
  obtain ⟨g', hl, hp, hv', _, hm', ha'⟩ := scan_complete bin args hh hq
  have hst : g'.stream_size = atoi t := by
    have hwf := getopt_returns_wellFormed args
    rw [hs] at hwf hl
    exact loop_last_stream bin pre post t _ g' hwf hpost hl
  have h₁ : g'.has_versions = false := by
    cases hb : g'.has_versions with
    | false => rfl
    | true => exact absurd (hv'.mp hb) hv
  have h₂ : (g'.model.isNone || g'.audio.isNone) = false := by
    have hm₁ := hm'.mpr hm
    have ha₁ := ha'.mpr ha
    cases hmo : g'.model with
    | none => exact absurd hmo hm₁
    | some _ =>
      cases hao : g'.audio with
      | none => exact absurd hao ha₁
      | some _ => rfl
  refine ⟨g', hst, ?_⟩
  rw [hp]
  simp only [ProcessArgs.checks, h₁, h₂, Bool.false_eq_true, if_false]

/-- C4: for every invocation that supplies model and audio, has no help, unknown or version
option, and whose last stream option has an argument that `atoi` reads as an integer `n`
that is negative or not divisible by 160, `ProcessArgs` returns `false` and what it writes
is exactly the line "Stream buffer size must be multiples of 160". -/
theorem C4_stream_rejected (bin : String) (args : List String)
    (pre post : List GetoptReturn) (t : String) (n : Int)
    (hm : optionSeen 'm' args) (ha : optionSeen 'a' args)
    (hh : ¬ optionSeen 'h' args) (hq : ¬ optionSeen '?' args) (hv : ¬ optionSeen 'v' args)
    (hs : getopt_returns short_opts long_opts args = pre ++ ⟨'s', some t⟩ :: post)
    (hpost : ∀ r ∈ post, r.opt ≠ 's')
    (ht : atoi t = n) (hn : n < 0 ∨ ¬ (160 : Int) ∣ n) :
    (ProcessArgs Globals.initial bin args).ending = Ending.returned false ∧
    (ProcessArgs Globals.initial bin args).out
      = [Output.text "Stream buffer size must be multiples of 160\n"] := by
  obtain ⟨g', hst, hp⟩ := stream_check bin args pre post t hm ha hh hq hv hs hpost
  have h₃ : (decide (g'.stream_size < 0) || Int.tmod g'.stream_size 160 != 0) = true := by
    rw [hst, ht]
    simp only [Bool.or_eq_true, decide_eq_true_eq, bne_iff_ne, ne_eq]
    rcases hn with h | h
    · exact Or.inl h
    · exact Or.inr (fun hc => h (Int.dvd_of_tmod_eq_zero hc))
  rw [hp, if_pos h₃]
  exact ⟨rfl, rfl⟩

/-- Witness of C4 on `deepspeech --model m.pb --audio a.wav --stream 321`. -/
theorem C4_stream_rejected_witness :
    (ProcessArgs Globals.initial "deepspeech"
        ["--model", "m.pb", "--audio", "a.wav", "--stream", "321"]).ending
      = Ending.returned false ∧
    (ProcessArgs Globals.initial "deepspeech"
        ["--model", "m.pb", "--audio", "a.wav", "--stream", "321"]).out
      = [Output.text "Stream buffer size must be multiples of 160\n"] :=
  C4_stream_rejected "deepspeech" ["--model", "m.pb", "--audio", "a.wav", "--stream", "321"]
    [⟨'m', some "m.pb"⟩, ⟨'a', some "a.wav"⟩] [] "321" 321
    (by decide) (by decide) (by decide) (by decide) (by decide) (by decide) (by decide)
    (by decide) (by decide)

/-- C5: for every non-negative multiple `n` of 160, an invocation that supplies model and
audio, has no help, unknown or version option, and whose last stream option has an argument
that `atoi` reads as `n`, returns `true` with `stream_size = n` and writes nothing. -/
theorem C5_stream_accepted (bin : String) (args : List String)
    (pre post : List GetoptReturn) (t : String) (n : Int)
    (hm : optionSeen 'm' args) (ha : optionSeen 'a' args)
    (hh : ¬ optionSeen 'h' args) (hq : ¬ optionSeen '?' args) (hv : ¬ optionSeen 'v' args)
    (hs : getopt_returns short_opts long_opts args = pre ++ ⟨'s', some t⟩ :: post)
    (hpost : ∀ r ∈ post, r.opt ≠ 's')
    (ht : atoi t = n) (h0 : 0 ≤ n) (hd : (160 : Int) ∣ n) :
    (ProcessArgs Globals.initial bin args).ending = Ending.returned true ∧
    (ProcessArgs Globals.initial bin args).globals.stream_size = n ∧
    (ProcessArgs Globals.initial bin args).out = [] := by
  obtain ⟨g', hst, hp⟩ := stream_check bin args pre post t hm ha hh hq hv hs hpost
  have h₃ : ¬ (decide (g'.stream_size < 0) || Int.tmod g'.stream_size 160 != 0) = true := by
    rw [hst, ht]
    simp only [Bool.or_eq_true, decide_eq_true_eq, bne_iff_ne, ne_eq, not_or, not_lt,
      Decidable.not_not]
    exact ⟨h0, Int.tmod_eq_zero_of_dvd hd⟩
  rw [hp, if_neg h₃]
  exact ⟨rfl, hst.trans ht, rfl⟩

/-- Witness of C5 on `deepspeech -m m.pb -a a.wav -s 320`. -/
theorem C5_stream_accepted_witness :
    (ProcessArgs Globals.initial "deepspeech" ["-m", "m.pb", "-a", "a.wav", "-s", "320"]).ending
      = Ending.returned true ∧
    (ProcessArgs Globals.initial "deepspeech"
        ["-m", "m.pb", "-a", "a.wav", "-s", "320"]).globals.stream_size = 320 ∧
    (ProcessArgs Globals.initial "deepspeech" ["-m", "m.pb", "-a", "a.wav", "-s", "320"]).out
      = [] :=
  C5_stream_accepted "deepspeech" ["-m", "m.pb", "-a", "a.wav", "-s", "320"]
    [⟨'m', some "m.pb"⟩, ⟨'a', some "a.wav"⟩] [] "320" 320
    (by decide) (by decide) (by decide) (by decide) (by decide) (by decide) (by decide)
    (by decide) (by decide) (by decide)

/-- C6, as amended: for every invocation that contains a version option and no help or
unknown option, `ProcessArgs` writes the version text alone (no usage text) and returns
`false`, whether or not model and audio are given; this is not "validation failed". -/
theorem C6_version_short_circuit (bin : String) (args : List String)
    (hv : optionSeen 'v' args) (hh : ¬ optionSeen 'h' args) (hq : ¬ optionSeen '?' args) :
    (ProcessArgs Globals.initial bin args).versionsPrinted ∧
    Output.text (usage bin) ∉ (ProcessArgs Globals.initial bin args).out ∧
    ¬ (ProcessArgs Globals.initial bin args).validationFailed bin := by
  obtain ⟨g', _, hp, hv', _⟩ := scan_complete bin args hh hq
  have h₁ : g'.has_versions = true := hv'.mpr hv
  have ho : (ProcessArgs Globals.initial bin args).out = [Output.versions] := by
    rw [hp]; simp [ProcessArgs.checks, h₁]
  have he : (ProcessArgs Globals.initial bin args).ending = Ending.returned false := by
    rw [hp]; simp [ProcessArgs.checks, h₁]
  refine ⟨⟨ho, he⟩, by rw [ho]; simp, ?_⟩
  rintro ⟨_, h | h⟩ <;> (rw [ho] at h; simp at h)

/-- Witness of C6 on `deepspeech --version`, where model and audio are missing. -/
theorem C6_version_short_circuit_witness :
    ¬ optionSeen 'm' ["--version"] ∧ ¬ optionSeen 'a' ["--version"] ∧
    (ProcessArgs Globals.initial "deepspeech" ["--version"]).versionsPrinted :=
  ⟨by decide, by decide,
    (C6_version_short_circuit "deepspeech" ["--version"] (by decide) (by decide) (by decide)).1⟩

/-- C6 as stated fails on `deepspeech --version --help`: a version option is present, yet the
usage text is written and the process ends with `exit(1)`; `ProcessArgs` does not return. -/
theorem C6_counterexample :
    optionSeen 'v' ["--version", "--help"] ∧
    ProcessArgs Globals.initial "deepspeech" ["--version", "--help"]
      = PrintHelp "deepspeech" { Globals.initial with has_versions := true } ∧
    ¬ (ProcessArgs Globals.initial "deepspeech" ["--version", "--help"]).versionsPrinted := by
  have hr : ProcessArgs Globals.initial "deepspeech" ["--version", "--help"]
      = PrintHelp "deepspeech" { Globals.initial with has_versions := true } := rfl
  refine ⟨by decide, hr, ?_⟩
  rintro ⟨_, h⟩
  rw [hr] at h
  cases h

/-- C7, as amended: for every invocation in which `getopt_long` reads a help option, that is,
`--help` or `-h` stands where an option is read (not as the argument of a preceding option,
not after the terminator `--`), whatever the other options and wherever it stands, the usage
text and the version text are written and the process ends with exit status 1. -/
theorem C7_help (bin : String) (args : List String) (hh : optionSeen 'h' args) :
    (ProcessArgs Globals.initial bin args).out = [Output.text (usage bin), Output.versions] ∧
    (ProcessArgs Globals.initial bin args).ending = Ending.exited 1 := by
  obtain ⟨r, hr, ho⟩ := hh
  obtain ⟨_, _, _, g', _, _, _, _, hl⟩ :=
    loop_help bin _ Globals.initial (getopt_returns_wellFormed args) ⟨r, hr, Or.inl ho⟩
  rw [ProcessArgs_of_left _ _ _ _ hl]
  exact ⟨rfl, rfl⟩

/-- Witness of C7 on `deepspeech --model m.pb --audio a.wav --stream 320 -v -h`. -/
theorem C7_help_witness :
    (ProcessArgs Globals.initial "deepspeech"
        ["--model", "m.pb", "--audio", "a.wav", "--stream", "320", "-v", "-h"]).out
      = [Output.text (usage "deepspeech"), Output.versions] ∧
    (ProcessArgs Globals.initial "deepspeech"
        ["--model", "m.pb", "--audio", "a.wav", "--stream", "320", "-v", "-h"]).ending
      = Ending.exited 1 :=
  C7_help "deepspeech" ["--model", "m.pb", "--audio", "a.wav", "--stream", "320", "-v", "-h"]
    (by decide)

/-- C7 as stated fails on `deepspeech --model --help --audio -h`: both `--help` and `-h`
appear among the arguments, but each is taken as the argument of the option before it, so no
help option is read; `ProcessArgs` returns `true` and writes nothing.  It fails likewise on
`deepspeech --model m.pb --audio a.wav -- --help`, where `--help` follows the terminator. -/
theorem C7_counterexample :
    ("--help" ∈ ["--model", "--help", "--audio", "-h"] ∧
      "-h" ∈ ["--model", "--help", "--audio", "-h"] ∧
      ¬ optionSeen 'h' ["--model", "--help", "--audio", "-h"] ∧
      ProcessArgs Globals.initial "deepspeech" ["--model", "--help", "--audio", "-h"] =
        { out := [], ending := Ending.returned true,
          globals := { Globals.initial with model := some "--help", audio := some "-h" } }) ∧
    ("--help" ∈ ["--model", "m.pb", "--audio", "a.wav", "--", "--help"] ∧
      ¬ optionSeen 'h' ["--model", "m.pb", "--audio", "a.wav", "--", "--help"] ∧
      ProcessArgs Globals.initial "deepspeech"
          ["--model", "m.pb", "--audio", "a.wav", "--", "--help"] =
        { out := [], ending := Ending.returned true,
          globals := { Globals.initial with model := some "m.pb", audio := some "a.wav" } }) :=
  ⟨⟨by decide, by decide, by decide, rfl⟩, by decide, by decide, rfl⟩

/-- C8: for every invocation in which `getopt_long` reports an unrecognised option or an
option lacking its required argument (it returns `'?'`), the usage text followed by the
version text is written and the process ends with exit status 1.  This happens inside the
loop, at the first help or `'?'` value: the globals are as the options before it left them,
whatever follows, and the checks after the loop are not reached. -/
theorem C8_unrecognised (bin : String) (args : List String) (hq : optionSeen '?' args) :
    (ProcessArgs Globals.initial bin args).out = [Output.text (usage bin), Output.versions] ∧
    (ProcessArgs Globals.initial bin args).ending = Ending.exited 1 ∧
    ∃ pre r post g', getopt_returns short_opts long_opts args = pre ++ r :: post ∧
      (r.opt = 'h' ∨ r.opt = '?') ∧
      ProcessArgs.loop bin pre Globals.initial = Scan.finished g' ∧
      (∀ post', ProcessArgs.loop bin (pre ++ r :: post') Globals.initial
        = Scan.left (PrintHelp bin g')) ∧
      ProcessArgs Globals.initial bin args = PrintHelp bin g' := by
  obtain ⟨x, hx, ho⟩ := hq
  obtain ⟨pre, r, post, g', e, hr, _, hpre, hl⟩ :=
    loop_help bin _ Globals.initial (getopt_returns_wellFormed args) ⟨x, hx, Or.inr ho⟩
  have hr' : switch g' r.opt r.optarg = Step.help := by
    rcases hr with h | h <;> (rw [h]; rfl)
  rw [ProcessArgs_of_left _ _ _ _ hl]
  refine ⟨rfl, rfl, pre, r, post, g', e, hr, hpre, ?_, rfl⟩
  intro post'
  rw [loop_append, hpre]
  simp only [ProcessArgs.loop, hr']

/-- Witness of C8 on `deepspeech --audio a.wav --bogus --version --model`: an unrecognised
option, and later an option without its argument. -/
theorem C8_unrecognised_witness :
    getopt_returns short_opts long_opts ["--audio", "a.wav", "--bogus", "--version", "--model"]
      = [⟨'a', some "a.wav"⟩, ⟨'?', none⟩, ⟨'v', none⟩, ⟨'?', none⟩] ∧
    (ProcessArgs Globals.initial "deepspeech"
        ["--audio", "a.wav", "--bogus", "--version", "--model"]).out
      = [Output.text (usage "deepspeech"), Output.versions] ∧
    (ProcessArgs Globals.initial "deepspeech"
        ["--audio", "a.wav", "--bogus", "--version", "--model"]).ending = Ending.exited 1 :=
  have h := C8_unrecognised "deepspeech" ["--audio", "a.wav", "--bogus", "--version", "--model"]
    (by decide)
  ⟨by decide, h.1, h.2.1⟩

/-- C9: for every invocation whose scan completes (no help or unknown option), starting from
the default configuration, `set_alphabeta` is true after `ProcessArgs` if and only if the
invocation contains an `lm_alpha` option or an `lm_beta` option. -/
theorem C9_set_alphabeta (bin : String) (args : List String)
    (hh : ¬ optionSeen 'h' args) (hq : ¬ optionSeen '?' args) :
    (ProcessArgs Globals.initial bin args).globals.set_alphabeta = true ↔
      optionSeen 'c' args ∨ optionSeen 'd' args := by
  obtain ⟨g', _, hp, _, hab, _⟩ := scan_complete bin args hh hq
  rw [hp, checks_globals, hab]

/-- Witness of C9 on `deepspeech --lm_beta 1.85`, and on `deepspeech -t`. -/
theorem C9_set_alphabeta_witness :
    (ProcessArgs Globals.initial "deepspeech" ["--lm_beta", "1.85"]).globals.set_alphabeta
      = true ∧
    ¬ optionSeen 'c' ["--lm_beta", "1.85"] ∧ optionSeen 'd' ["--lm_beta", "1.85"] :=
  ⟨(C9_set_alphabeta "deepspeech" ["--lm_beta", "1.85"] (by decide) (by decide)).mpr
      (Or.inr (by decide)),
    by decide, by decide⟩

/-- C10: for every model path `m` and audio path `a`, the invocation `prog --model m --audio a`
returns `true`, writes nothing, and leaves `model = m`, `audio = a` and every other global at
its initial value: `beam_width = 500`, `set_alphabeta = false`, `scorer` null, `show_times`,
`extended_metadata`, `json_output` and `has_versions` false, `stream_size = 0`. -/
theorem C10_model_audio_only (bin m a : String) :
    ProcessArgs Globals.initial bin ["--model", m, "--audio", a] =
      { out := [],
        ending := Ending.returned true,
        globals :=
          { model := some m, scorer := none, audio := some a, beam_width := 500,
            set_alphabeta := false, lm_alpha := CFloat.zero, lm_beta := CFloat.zero,
            show_times := false, has_versions := false, extended_metadata := false,
            json_output := false, stream_size := 0 } } := by
  rfl

/-! ## Short and long forms -/

/-- An option in its long form and in its short form, each standing alone in its `argv`
element, give the same values returned by `getopt_long`. -/
theorem getopt_returns_forms (p : option) (hp : p ∈ long_opts) (rest : List String) :
    getopt_returns short_opts long_opts (("--" ++ p.name) :: rest) =
      getopt_returns short_opts long_opts (("-" ++ String.singleton p.val) :: rest) := by
  simp only [long_opts, List.mem_cons, List.mem_singleton, List.not_mem_nil, or_false] at hp
  rcases hp with rfl | rfl | rfl | rfl | rfl | rfl | rfl | rfl | rfl | rfl | rfl | rfl <;>
    cases rest <;> rfl

theorem optionBoundary_nil : optionBoundary [] := fun _ => rfl

theorem optionBoundary_append (p q : List String) (hp : optionBoundary p)
    (hq : optionBoundary q) : optionBoundary (p ++ q) := by
  intro suffix
  rw [List.append_assoc, hp, hq, hp, List.append_assoc]

/-- An option of the table written on its own, in long or short form and followed by its
argument when it requires one, is followed by an option boundary; so is an element that is
not an option. -/
theorem optionBoundary_entry (p : option) (hp : p ∈ long_opts) (x : String) :
    (p.has_arg = true →
      optionBoundary ["--" ++ p.name, x] ∧ optionBoundary ["-" ++ String.singleton p.val, x]) ∧
    (p.has_arg = false →
      optionBoundary ["--" ++ p.name] ∧ optionBoundary ["-" ++ String.singleton p.val]) := by
  simp only [long_opts, List.mem_cons, List.mem_singleton, List.not_mem_nil, or_false] at hp
  rcases hp with rfl | rfl | rfl | rfl | rfl | rfl | rfl | rfl | rfl | rfl | rfl | rfl <;>
    refine ⟨fun h => ?_, fun h => ?_⟩ <;>
    first
      | exact absurd h (by decide)
      | exact ⟨fun _ => rfl, fun _ => rfl⟩

/-- C11: short and long forms are interchangeable.  For every invocation and every entry of
the option table, replacing the long form `--name` by the short form `-c` (or the reverse)
where it stands as an option, the following elements and so its argument being kept, gives
the same result of `ProcessArgs`: the same ending, the same output, the same globals. -/
theorem C11_short_long (g : Globals) (bin : String) (pre rest : List String) (p : option)
    (hp : p ∈ long_opts) (hpre : optionBoundary pre) :
    ProcessArgs g bin (pre ++ ("--" ++ p.name) :: rest) =
      ProcessArgs g bin (pre ++ ("-" ++ String.singleton p.val) :: rest) := by
  unfold ProcessArgs
  rw [hpre, hpre, getopt_returns_forms p hp rest]

/-- Witness of C11: `deepspeech -t --model m.pb --audio a.wav` and
`deepspeech -t --model m.pb -a a.wav`. -/
theorem C11_short_long_witness :
    ProcessArgs Globals.initial "deepspeech" ["-t", "--model", "m.pb", "--audio", "a.wav"] =
      ProcessArgs Globals.initial "deepspeech" ["-t", "--model", "m.pb", "-a", "a.wav"] :=
  C11_short_long Globals.initial "deepspeech" ["-t", "--model", "m.pb"] ["a.wav"]
    ⟨"audio", required_argument, 'a'⟩ (by decide) (fun _ => rfl)

/-! ## Frame of the `switch`, help and version -/

/-- C14: handling one recognised option leaves every field of the configuration unchanged
except the field or fields of that option: `model` changes only on `m`, `scorer` only on `l`,
`audio` only on `a`, `beam_width` only on `b`, `set_alphabeta` only on `c` and `d`,
`lm_alpha` only on `c`, `lm_beta` only on `d`, `show_times` only on `t`, `has_versions` only
on `v`, `extended_metadata` only on `e`, `json_output` only on `j`, `stream_size` only
on `s`. -/
theorem C14_frame (g g' : Globals) (opt : Char) (optarg : Option String)
    (h : switch g opt optarg = Step.next g') :
    (opt ≠ 'm' → g'.model = g.model) ∧
    (opt ≠ 'l' → g'.scorer = g.scorer) ∧
    (opt ≠ 'a' → g'.audio = g.audio) ∧
    (opt ≠ 'b' → g'.beam_width = g.beam_width) ∧
    (opt ≠ 'c' → opt ≠ 'd' → g'.set_alphabeta = g.set_alphabeta) ∧
    (opt ≠ 'c' → g'.lm_alpha = g.lm_alpha) ∧
    (opt ≠ 'd' → g'.lm_beta = g.lm_beta) ∧
    (opt ≠ 't' → g'.show_times = g.show_times) ∧
    (opt ≠ 'v' → g'.has_versions = g.has_versions) ∧
    (opt ≠ 'e' → g'.extended_metadata = g.extended_metadata) ∧
    (opt ≠ 'j' → g'.json_output = g.json_output) ∧
    (opt ≠ 's' → g'.stream_size = g.stream_size) := by
  unfold switch at h
  split at h <;> first | (cases h; simp) | (cases h)

/-- Witness of C14 on the option `--lm_alpha 0.75`, handled from the initial globals. -/
theorem C14_frame_witness :
    switch Globals.initial 'c' (some "0.75") =
      Step.next { Globals.initial with set_alphabeta := true, lm_alpha := atof "0.75" } ∧
    ({ Globals.initial with set_alphabeta := true, lm_alpha := atof "0.75" } : Globals).lm_beta
      = Globals.initial.lm_beta ∧
    ({ Globals.initial with set_alphabeta := true, lm_alpha := atof "0.75" } : Globals).beam_width
      = Globals.initial.beam_width :=
  have h := C14_frame Globals.initial
    { Globals.initial with set_alphabeta := true, lm_alpha := atof "0.75" } 'c' (some "0.75") rfl
  ⟨rfl, h.2.2.2.2.2.2.1 (by decide), h.2.2.2.1 (by decide)⟩

/-- C16: help and unknown options outrank the version option.  For every invocation that
contains a version option and a help or unrecognised option, in either order, the usage text
is written and the process ends with exit status 1 inside the loop; `ProcessArgs` does not
return, so the "versions printed" outcome is not given. -/
theorem C16_help_outranks_version (bin : String) (args : List String)
    (_hv : optionSeen 'v' args) (hh : optionSeen 'h' args ∨ optionSeen '?' args) :
    (ProcessArgs Globals.initial bin args).out = [Output.text (usage bin), Output.versions] ∧
    (ProcessArgs Globals.initial bin args).ending = Ending.exited 1 ∧
    (∃ g', ProcessArgs.loop bin (getopt_returns short_opts long_opts args) Globals.initial
      = Scan.left (PrintHelp bin g')) ∧
    (∀ b, (ProcessArgs Globals.initial bin args).ending ≠ Ending.returned b) ∧
    ¬ (ProcessArgs Globals.initial bin args).versionsPrinted := by
  have hex : ∃ r ∈ getopt_returns short_opts long_opts args, r.opt = 'h' ∨ r.opt = '?' := by
    rcases hh with ⟨r, hr, h⟩ | ⟨r, hr, h⟩
    · exact ⟨r, hr, Or.inl h⟩
    · exact ⟨r, hr, Or.inr h⟩
  obtain ⟨_, _, _, g', _, _, _, _, hl⟩ :=
    loop_help bin _ Globals.initial (getopt_returns_wellFormed args) hex
  have hp := ProcessArgs_of_left _ _ _ _ hl
  have he : (ProcessArgs Globals.initial bin args).ending = Ending.exited 1 := by
    rw [hp]; rfl
  refine ⟨by rw [hp]; rfl, he, ⟨g', hl⟩, fun b => by rw [he]; simp, ?_⟩
  rintro ⟨_, h⟩
  rw [he] at h
  cases h

/-- Witness of C16 on `deepspeech -v -h` and on `deepspeech --bogus --version`. -/
theorem C16_help_outranks_version_witness :
    (ProcessArgs Globals.initial "deepspeech" ["-v", "-h"]).ending = Ending.exited 1 ∧
    (ProcessArgs Globals.initial "deepspeech" ["--bogus", "--version"]).ending
      = Ending.exited 1 :=
  ⟨(C16_help_outranks_version "deepspeech" ["-v", "-h"] (by decide)
      (Or.inl (by decide))).2.1,
    (C16_help_outranks_version "deepspeech" ["--bogus", "--version"] (by decide)
      (Or.inr (by decide))).2.1⟩

/-! ## Malformed numeric text -/

theorem digitsValue_of_not_digit (cs : List Char) (h : (cs.head?.map Char.isDigit) ≠ some true) :
    digitsValue cs 0 = 0 := by
  cases cs with
  | nil => rfl
  | cons c cs =>
    have hc : c.isDigit = false := by
      cases hd : c.isDigit with
      | false => rfl
      | true => simp [hd] at h
    simp [digitsValue, hc]

/-- On a text that does not start with a number, `atoi` gives 0. -/
theorem atoi_of_not_number (t : String) (ht : startsWithNumber t = false) : atoi t = 0 := by
  have h0 : toInt 0 = 0 := by decide
  have hmin : min (0 : Int) LONG_MAX = 0 := by decide
  have hmax : max (0 : Int) LONG_MIN = 0 := by decide
  unfold startsWithNumber at ht
  unfold atoi strtol
  generalize t.data.dropWhile isspace = l at ht ⊢
  unfold strtolSigned
  split
  · rename_i cs
    have : digitsValue cs 0 = 0 := by
      apply digitsValue_of_not_digit
      cases cs with
      | nil => simp
      | cons c cs => simp at ht ⊢; exact ht
    simp [this, hmax, h0]
  · rename_i cs
    have : digitsValue cs 0 = 0 := by
      apply digitsValue_of_not_digit
      cases cs with
      | nil => simp
      | cons c cs => simp at ht ⊢; exact ht
    simp [this, hmin, h0]
  · rename_i h₁ h₂
    have : digitsValue l 0 = 0 := by
      apply digitsValue_of_not_digit
      cases l with
      | nil => simp
      | cons c cs =>
        split at ht
        · rename_i heq; exact absurd heq (h₁ _)
        · rename_i heq; exact absurd heq (h₂ _)
        · rename_i heq; cases heq; simpa using ht
        · rename_i heq; cases heq
    simp [this, hmin, h0]

/-- Two values on which the `switch` acts alike can stand for each other in the scan. -/
theorem loop_congr (bin : String) (pre post : List GetoptReturn) (r r' : GetoptReturn)
    (g : Globals) (h : ∀ g₁, switch g₁ r.opt r.optarg = switch g₁ r'.opt r'.optarg) :
    ProcessArgs.loop bin (pre ++ r :: post) g = ProcessArgs.loop bin (pre ++ r' :: post) g := by
  rw [loop_append, loop_append]
  cases ProcessArgs.loop bin pre g with
  | left x => rfl
  | finished g₁ => simp only [ProcessArgs.loop, h g₁]

/-- C12: malformed numeric text is not an error.  For every argument text that does not
start (after optional white space) with an optionally signed decimal digit, `atoi` gives 0:
`--beam_width text` sets `beam_width` to 0, not to the default 500, `--stream text` sets
`stream_size` to 0, and `ProcessArgs` gives the same result as with the text `0` in that
place; `prog --model m --audio a --stream text` returns `true` and writes nothing. -/
theorem C12_malformed_numeric (t : String) (ht : startsWithNumber t = false) :
    atoi t = 0 ∧
    (∀ g, switch g 'b' (some t) = Step.next { g with beam_width := 0 }) ∧
    (∀ g, switch g 's' (some t) = Step.next { g with stream_size := 0 }) ∧
    (∀ g bin pre rest, optionBoundary pre →
      ProcessArgs g bin (pre ++ "--beam_width" :: t :: rest) =
        ProcessArgs g bin (pre ++ "--beam_width" :: "0" :: rest)) ∧
    (∀ g bin pre rest, optionBoundary pre →
      ProcessArgs g bin (pre ++ "--stream" :: t :: rest) =
        ProcessArgs g bin (pre ++ "--stream" :: "0" :: rest)) ∧
    (∀ bin m a, ProcessArgs Globals.initial bin ["--model", m, "--audio", a, "--stream", t] =
      { out := [], ending := Ending.returned true,
        globals := { Globals.initial with model := some m, audio := some a } }) := by
  have h0 : atoi t = 0 := atoi_of_not_number t ht
  have hz : atoi "0" = 0 := by decide
  have hb : ∀ g, switch g 'b' (some t) = Step.next { g with beam_width := 0 } := by
    intro g; simp only [switch, h0]
  have hs : ∀ g, switch g 's' (some t) = Step.next { g with stream_size := 0 } := by
    intro g; simp only [switch, h0]
  refine ⟨h0, hb, hs, ?_, ?_, ?_⟩
  · intro g bin pre rest hpre
    have e₁ : getopt_returns short_opts long_opts ("--beam_width" :: t :: rest)
        = ⟨'b', some t⟩ :: getopt_returns short_opts long_opts rest := rfl
    have e₂ : getopt_returns short_opts long_opts ("--beam_width" :: "0" :: rest)
        = ⟨'b', some "0"⟩ :: getopt_returns short_opts long_opts rest := rfl
    unfold ProcessArgs
    rw [hpre, hpre, e₁, e₂, loop_congr bin _ _ ⟨'b', some t⟩ ⟨'b', some "0"⟩ g]
    intro g₁
    simp only [switch, h0, hz]
  · intro g bin pre rest hpre
    have e₁ : getopt_returns short_opts long_opts ("--stream" :: t :: rest)
        = ⟨'s', some t⟩ :: getopt_returns short_opts long_opts rest := rfl
    have e₂ : getopt_returns short_opts long_opts ("--stream" :: "0" :: rest)
        = ⟨'s', some "0"⟩ :: getopt_returns short_opts long_opts rest := rfl
    unfold ProcessArgs
    rw [hpre, hpre, e₁, e₂, loop_congr bin _ _ ⟨'s', some t⟩ ⟨'s', some "0"⟩ g]
    intro g₁
    simp only [switch, h0, hz]
  · intro bin m a
    have e : getopt_returns short_opts long_opts ["--model", m, "--audio", a, "--stream", t]
        = [⟨'m', some m⟩, ⟨'a', some a⟩, ⟨'s', some t⟩] := rfl
    unfold ProcessArgs
    rw [e]
    simp only [ProcessArgs.loop, switch, h0]
    rfl

/-- Witness of C12 on the text `abc`. -/
theorem C12_malformed_numeric_witness :
    atoi "abc" = 0 ∧
    ProcessArgs Globals.initial "deepspeech" ["--model", "m.pb", "--audio", "a.wav",
        "--stream", "abc"] =
      { out := [], ending := Ending.returned true,
        globals := { Globals.initial with model := some "m.pb", audio := some "a.wav" } } ∧
    (ProcessArgs Globals.initial "deepspeech" ["--model", "m.pb", "--audio", "a.wav",
        "--beam_width", "abc"]).globals.beam_width = 0 :=
  have h := C12_malformed_numeric "abc" (by decide)
  ⟨h.1, h.2.2.2.2.2 "deepspeech" "m.pb" "a.wav", by decide⟩

/-! ## The configuration at the end of the scan -/

theorem lastOptarg_concat (c : Char) (rs : List GetoptReturn) (r : GetoptReturn) :
    lastOptarg c (rs ++ [r]) = if r.opt = c then r.optarg else lastOptarg c rs := by
  unfold lastOptarg
  by_cases h : r.opt = c
  · simp [List.filter_append, h]
  · simp [List.filter_append, h]

theorem occurs_concat (c : Char) (rs : List GetoptReturn) (r : GetoptReturn) :
    occurs c (rs ++ [r]) = (occurs c rs || decide (r.opt = c)) := by
  simp [occurs]

theorem described_nil : described [] = Globals.initial := rfl

/-- One pass through the `switch` carries the described configuration along. -/
theorem switch_described (rs : List GetoptReturn) (r : GetoptReturn) (g' : Globals)
    (hwf : r.wellFormed) (h : switch (described rs) r.opt r.optarg = Step.next g') :
    g' = described (rs ++ [r]) := by
  obtain ⟨c, a⟩ := r
  simp only [GetoptReturn.wellFormed, List.mem_cons, List.mem_singleton, List.not_mem_nil,
    or_false] at hwf
  rcases hwf with ⟨hc, ha⟩ | ⟨hc, rfl⟩
  · obtain ⟨t, rfl⟩ := Option.ne_none_iff_exists'.mp ha
    rcases hc with rfl | rfl | rfl | rfl | rfl | rfl | rfl <;>
      (simp only [switch, Step.next.injEq] at h
       subst h
       simp [described, lastOptarg_concat, occurs_concat])
  · rcases hc with rfl | rfl | rfl | rfl | rfl | rfl
    · simp only [switch, Step.next.injEq] at h
      subst h
      simp [described, lastOptarg_concat, occurs_concat]
    · simp only [switch, Step.next.injEq] at h
      subst h
      simp [described, lastOptarg_concat, occurs_concat]
    · simp only [switch, Step.next.injEq] at h
      subst h
      simp [described, lastOptarg_concat, occurs_concat]
    · simp only [switch, Step.next.injEq] at h
      subst h
      simp [described, lastOptarg_concat, occurs_concat]
    · simp [switch] at h
    · simp [switch] at h

/-- The globals at the end of a completed scan from the initial ones are those the options
describe. -/
theorem loop_described (bin : String) (rs : List GetoptReturn) (g' : Globals)
    (hwf : ∀ r ∈ rs, r.wellFormed)
    (h : ProcessArgs.loop bin rs Globals.initial = Scan.finished g') :
    g' = described rs := by
  induction rs using List.reverseRecOn generalizing g' with
  | nil =>
    simp only [ProcessArgs.loop, Scan.finished.injEq] at h
    exact h.symm
  | append_singleton rs r ih =>
    rw [loop_append] at h
    cases hl : ProcessArgs.loop bin rs Globals.initial with
    | left x => rw [hl] at h; cases h
    | finished g₁ =>
      rw [hl] at h
      have hg₁ := ih g₁ (fun x hx => hwf x (List.mem_append_left _ hx)) hl
      subst hg₁
      simp only [ProcessArgs.loop] at h
      split at h
      · rename_i g₂ hs
        simp only [Scan.finished.injEq] at h
        subst h
        exact switch_described rs r g₂ (hwf r (by simp)) hs
      · cases h
      · cases h

/-- C13: the proceed outcome carries the populated configuration.  For every invocation for
which `ProcessArgs` returns `true`, each of `model`, `scorer` and `audio` is the argument of
the last occurrence of its option, null when the option does not occur, and each of
`beam_width` and `stream_size` is `atoi` of the argument of the last occurrence of its
option, 500 and 0 when the option does not occur. -/
theorem C13_last_occurrence (bin : String) (args : List String)
    (h : (ProcessArgs Globals.initial bin args).ending = Ending.returned true) :
    (ProcessArgs Globals.initial bin args).globals.model
      = lastOptarg 'm' (getopt_returns short_opts long_opts args) ∧
    (ProcessArgs Globals.initial bin args).globals.scorer
      = lastOptarg 'l' (getopt_returns short_opts long_opts args) ∧
    (ProcessArgs Globals.initial bin args).globals.audio
      = lastOptarg 'a' (getopt_returns short_opts long_opts args) ∧
    (ProcessArgs Globals.initial bin args).globals.beam_width
      = (match lastOptarg 'b' (getopt_returns short_opts long_opts args) with
        | some t => atoi t
        | none => 500) ∧
    (ProcessArgs Globals.initial bin args).globals.stream_size
      = (match lastOptarg 's' (getopt_returns short_opts long_opts args) with
        | some t => atoi t
        | none => 0) := by
  cases hl : ProcessArgs.loop bin (getopt_returns short_opts long_opts args) Globals.initial with
  | left r =>
    rw [ProcessArgs_of_left _ _ _ _ hl] at h
    exact absurd h (loop_left_ending _ _ _ _ hl true)
  | finished g' =>
    have hg := loop_described bin _ g' (getopt_returns_wellFormed args) hl
    rw [ProcessArgs_of_finished _ _ _ _ hl, checks_globals, hg]
    exact ⟨rfl, rfl, rfl, rfl, rfl⟩

/-- Witness of C13 on `deepspeech --model m.pb --audio a.wav --stream 321 --stream 320`: the
earlier, invalid stream size is overridden. -/
theorem C13_last_occurrence_witness :
    (ProcessArgs Globals.initial "deepspeech"
        ["--model", "m.pb", "--audio", "a.wav", "--stream", "321", "--stream", "320"]).ending
      = Ending.returned true ∧
    (ProcessArgs Globals.initial "deepspeech"
        ["--model", "m.pb", "--audio", "a.wav", "--stream", "321", "--stream", "320"]
      ).globals.stream_size = 320 :=
  ⟨by decide,
    (C13_last_occurrence "deepspeech"
      ["--model", "m.pb", "--audio", "a.wav", "--stream", "321", "--stream", "320"]
      (by decide)).2.2.2.2.trans (by decide)⟩

/-! ## Order of the options -/

theorem occurs_congr (c : Char) (rs₁ rs₂ : List GetoptReturn)
    (h : ∀ r, r ∈ rs₁ ↔ r ∈ rs₂) : occurs c rs₁ = occurs c rs₂ := by
  unfold occurs
  rw [Bool.eq_iff_iff]
  simp only [List.any_eq_true, decide_eq_true_eq]
  constructor
  · rintro ⟨r, hr, hc⟩; exact ⟨r, (h r).mp hr, hc⟩
  · rintro ⟨r, hr, hc⟩; exact ⟨r, (h r).mpr hr, hc⟩

theorem lastOptarg_of_all_eq (c : Char) (rs : List GetoptReturn) (r : GetoptReturn)
    (hr : r ∈ rs) (hc : r.opt = c) (hall : ∀ x ∈ rs, x.opt = c → x = r) :
    lastOptarg c rs = r.optarg := by
  unfold lastOptarg
  have hmem : r ∈ rs.filter (fun r => decide (r.opt = c)) := by
    simp [List.mem_filter, hr, hc]
  have hne : rs.filter (fun r => decide (r.opt = c)) ≠ [] := List.ne_nil_of_mem hmem
  rw [List.getLast?_eq_getLast _ hne]
  have hl := List.getLast_mem hne
  rw [List.mem_filter] at hl
  have := hall _ hl.1 (by simpa using hl.2)
  rw [this]
  rfl

theorem lastOptarg_of_not_mem (c : Char) (rs : List GetoptReturn)
    (h : ∀ x ∈ rs, x.opt ≠ c) : lastOptarg c rs = none := by
  unfold lastOptarg
  have : rs.filter (fun r => decide (r.opt = c)) = [] := by
    rw [List.filter_eq_nil_iff]
    intro x hx
    simpa using h x hx
  rw [this]
  rfl

theorem eq_of_filter_length_le_one (c : Char) (rs : List GetoptReturn)
    (hlen : (rs.filter (fun r => decide (r.opt = c))).length ≤ 1) (x r : GetoptReturn)
    (hx : x ∈ rs) (hxc : x.opt = c) (hr : r ∈ rs) (hrc : r.opt = c) : x = r := by
  have hx' : x ∈ rs.filter (fun r => decide (r.opt = c)) := by simp [List.mem_filter, hx, hxc]
  have hr' : r ∈ rs.filter (fun r => decide (r.opt = c)) := by simp [List.mem_filter, hr, hrc]
  generalize rs.filter (fun r => decide (r.opt = c)) = l at hlen hx' hr'
  match l, hlen, hx', hr' with
  | [a], _, hx', hr' =>
    rw [List.mem_singleton] at hx' hr'
    rw [hx', hr']
  | _ :: _ :: _, hlen, _, _ => simp at hlen

theorem lastOptarg_congr (c : Char) (rs₁ rs₂ : List GetoptReturn)
    (h : ∀ r, r ∈ rs₁ ↔ r ∈ rs₂)
    (hlen : (rs₁.filter (fun r => decide (r.opt = c))).length ≤ 1) :
    lastOptarg c rs₁ = lastOptarg c rs₂ := by
  by_cases hex : ∃ r ∈ rs₁, r.opt = c
  · obtain ⟨r, hr, hc⟩ := hex
    have hall₁ : ∀ x ∈ rs₁, x.opt = c → x = r := fun x hx hxc =>
      eq_of_filter_length_le_one c rs₁ hlen x r hx hxc hr hc
    have hall₂ : ∀ x ∈ rs₂, x.opt = c → x = r := fun x hx hxc => hall₁ x ((h x).mpr hx) hxc
    rw [lastOptarg_of_all_eq c rs₁ r hr hc hall₁,
      lastOptarg_of_all_eq c rs₂ r ((h r).mp hr) hc hall₂]
  · have h₁ : ∀ x ∈ rs₁, x.opt ≠ c := fun x hx hxc => hex ⟨x, hx, hxc⟩
    have h₂ : ∀ x ∈ rs₂, x.opt ≠ c := fun x hx => h₁ x ((h x).mpr hx)
    rw [lastOptarg_of_not_mem c rs₁ h₁, lastOptarg_of_not_mem c rs₂ h₂]

/-- Options with the same members, none that takes a value occurring twice, describe the
same configuration. -/
theorem described_congr (rs₁ rs₂ : List GetoptReturn) (h : ∀ r, r ∈ rs₁ ↔ r ∈ rs₂)
    (h₁ : valueOnce rs₁) : described rs₁ = described rs₂ := by
  unfold described
  rw [lastOptarg_congr 'm' rs₁ rs₂ h (h₁ 'm' (by simp)),
    lastOptarg_congr 'l' rs₁ rs₂ h (h₁ 'l' (by simp)),
    lastOptarg_congr 'a' rs₁ rs₂ h (h₁ 'a' (by simp)),
    lastOptarg_congr 'b' rs₁ rs₂ h (h₁ 'b' (by simp)),
    lastOptarg_congr 'c' rs₁ rs₂ h (h₁ 'c' (by simp)),
    lastOptarg_congr 'd' rs₁ rs₂ h (h₁ 'd' (by simp)),
    lastOptarg_congr 's' rs₁ rs₂ h (h₁ 's' (by simp)),
    occurs_congr 'c' rs₁ rs₂ h, occurs_congr 'd' rs₁ rs₂ h, occurs_congr 't' rs₁ rs₂ h,
    occurs_congr 'v' rs₁ rs₂ h, occurs_congr 'e' rs₁ rs₂ h, occurs_congr 'j' rs₁ rs₂ h]

/-- C15: option order does not matter.  Take an invocation in which no option that takes a
value occurs more than once, and a second invocation whose options, each with its argument,
have the same members: any permutation of the options of the first, also with toggles
repeated any number of times.  Both give the same output and the same ending, and the same
configuration when the outcome is not the help exit. -/
theorem C15_order (bin : String) (args₁ args₂ : List String)
    (h₁₂ : ∀ r ∈ getopt_returns short_opts long_opts args₁,
      r ∈ getopt_returns short_opts long_opts args₂)
    (h₂₁ : ∀ r ∈ getopt_returns short_opts long_opts args₂,
      r ∈ getopt_returns short_opts long_opts args₁)
    (honce : valueOnce (getopt_returns short_opts long_opts args₁)) :
    (ProcessArgs Globals.initial bin args₁).out = (ProcessArgs Globals.initial bin args₂).out ∧
    (ProcessArgs Globals.initial bin args₁).ending
      = (ProcessArgs Globals.initial bin args₂).ending ∧
    ((ProcessArgs Globals.initial bin args₁).ending ≠ Ending.exited 1 →
      (ProcessArgs Globals.initial bin args₁).globals
        = (ProcessArgs Globals.initial bin args₂).globals) ∧
    (¬ optionSeen 'h' args₁ → ¬ optionSeen '?' args₁ →
      ProcessArgs Globals.initial bin args₁ = ProcessArgs Globals.initial bin args₂) := by
  have hwf₁ := getopt_returns_wellFormed args₁
  have hwf₂ := getopt_returns_wellFormed args₂
  have hsame : ∀ r, r ∈ getopt_returns short_opts long_opts args₁ ↔
      r ∈ getopt_returns short_opts long_opts args₂ := fun r => ⟨h₁₂ r, h₂₁ r⟩
  have key : ¬ optionSeen 'h' args₁ → ¬ optionSeen '?' args₁ →
      ProcessArgs Globals.initial bin args₁ = ProcessArgs Globals.initial bin args₂ := by
    intro hh hq
    have hh₂ : ¬ optionSeen 'h' args₂ := fun ⟨r, hr, hc⟩ => hh ⟨r, (hsame r).mpr hr, hc⟩
    have hq₂ : ¬ optionSeen '?' args₂ := fun ⟨r, hr, hc⟩ => hq ⟨r, (hsame r).mpr hr, hc⟩
    obtain ⟨g₁, hl₁, hp₁, _⟩ := scan_complete bin args₁ hh hq
    obtain ⟨g₂, hl₂, hp₂, _⟩ := scan_complete bin args₂ hh₂ hq₂
    rw [hp₁, hp₂, loop_described bin _ g₁ hwf₁ hl₁, loop_described bin _ g₂ hwf₂ hl₂,
      described_congr _ _ hsame honce]
  by_cases hex : optionSeen 'h' args₁ ∨ optionSeen '?' args₁
  · have hex₁ : ∃ r ∈ getopt_returns short_opts long_opts args₁, r.opt = 'h' ∨ r.opt = '?' := by
      rcases hex with ⟨r, hr, h⟩ | ⟨r, hr, h⟩
      · exact ⟨r, hr, Or.inl h⟩
      · exact ⟨r, hr, Or.inr h⟩
    have hex₂ : ∃ r ∈ getopt_returns short_opts long_opts args₂, r.opt = 'h' ∨ r.opt = '?' := by
      obtain ⟨r, hr, h⟩ := hex₁
      exact ⟨r, (hsame r).mp hr, h⟩
    obtain ⟨_, _, _, g₁, _, _, _, _, hl₁⟩ := loop_help bin _ Globals.initial hwf₁ hex₁
    obtain ⟨_, _, _, g₂, _, _, _, _, hl₂⟩ := loop_help bin _ Globals.initial hwf₂ hex₂
    refine ⟨?_, ?_, ?_, key⟩ <;>
      rw [ProcessArgs_of_left _ _ _ _ hl₁, ProcessArgs_of_left _ _ _ _ hl₂]
    · rfl
    · rfl
    · exact fun h => absurd rfl h
  · have hh : ¬ optionSeen 'h' args₁ := fun h => hex (Or.inl h)
    have hq : ¬ optionSeen '?' args₁ := fun h => hex (Or.inr h)
    have e := key hh hq
    exact ⟨by rw [e], by rw [e], fun _ => by rw [e], key⟩

/-- Witness of C15: `deepspeech --model m.pb -t --audio a.wav --stream 320` and
`deepspeech -t --stream 320 --audio a.wav -t --model m.pb -t`, a permutation with the toggle
repeated. -/
theorem C15_order_witness :
    ProcessArgs Globals.initial "deepspeech"
        ["--model", "m.pb", "-t", "--audio", "a.wav", "--stream", "320"] =
      ProcessArgs Globals.initial "deepspeech"
        ["-t", "--stream", "320", "--audio", "a.wav", "-t", "--model", "m.pb", "-t"] :=
  (C15_order "deepspeech"
    ["--model", "m.pb", "-t", "--audio", "a.wav", "--stream", "320"]
    ["-t", "--stream", "320", "--audio", "a.wav", "-t", "--model", "m.pb", "-t"]
    (by decide) (by decide) (by decide)).2.2.2 (by decide) (by decide)

end DeepSpeech
